import Mathlib

/-!
Verification of the `rustfromscratch/chain` value-transfer executor, state
database, gas meter, slashing detector and PoA consensus step against the
repository's specification.

The Rust source is shallowly embedded:

* Machine integers (`u64`) are `Nat`; the unchecked Rust arithmetic of the
  source (`+`, `*`, `+=` without `checked_*`) is modelled by `checkedAdd` /
  `checkedMul`, which return `none` when the mathematical result does not fit
  in 64 bits.  A `none` at the top of a function models the arithmetic-overflow
  panic of Rust's checked (debug) semantics.  Where the source itself uses
  `checked_add` / explicit comparison (`Account::add_balance`,
  `Account::sub_balance`), the failure is a typed `VmError`, exactly as in the
  source.  `saturating_sub` on `u64` is truncated `Nat` subtraction, which
  agrees with it exactly.
* Rust `HashMap`s are modelled as association lists.  The maps of
  `MemoryStateDB` and `AccountChanges` are kept sorted by key
  (`sinsert`/`serase`), which is a canonical representation of the finite map
  a `HashMap` denotes; iteration order, which the source only uses where it is
  irrelevant (applying a change set, sorting before hashing), becomes the
  sorted order.  Maps with non-`Nat` keys (the gas breakdown, the slashing
  tables) use plain insert-overwrite association lists (`ainsert`/`afind?`).
* Opaque cryptography (blake3 for the state root, Keccak for header hashes,
  the blake3-derived VRF selection) is a parameter: functions receive a digest
  function (`blake : List Nat → Nat`, `hashFn : BlockHeader → Nat`,
  `select : Nat → Nat`) and the theorems quantify over it.  Concrete
  evaluations instantiate it with the executable stand-in `blakeModel`.
* `Transaction::from()` (ECDSA sender recovery) is modelled by a
  `sender : Option Address` field carrying the recovery result; `none` models
  a failed recovery.
* Wall-clock reads (`SystemTime::now`) become explicit `now : Nat` arguments;
  the consensus event channel becomes the list of events the engine sends.
-/

namespace Chain

/-- Size of the `u64` domain. -/
def U64 : Nat := 2 ^ 64

/-- Unchecked Rust `u64` addition: `none` models the overflow panic. -/
def checkedAdd (a b : Nat) : Option Nat :=
  if a + b < U64 then some (a + b) else none

/-- Unchecked Rust `u64` multiplication: `none` models the overflow panic. -/
def checkedMul (a b : Nat) : Option Nat :=
  if a * b < U64 then some (a * b) else none

/-! ### Sorted association lists (the model of the state `HashMap`s) -/

/-- Lookup in an association list (first match). -/
def sfind? {β : Type} (k : Nat) : List (Nat × β) → Option β
  | [] => none
  | (k', v) :: rest => if k' = k then some v else sfind? k rest

/-- Insert-or-overwrite keeping the list sorted by key (`HashMap::insert`). -/
def sinsert {β : Type} (k : Nat) (v : β) : List (Nat × β) → List (Nat × β)
  | [] => [(k, v)]
  | (k', v') :: rest =>
    if k < k' then (k, v) :: (k', v') :: rest
    else if k = k' then (k, v) :: rest
    else (k', v') :: sinsert k v rest

/-- Remove a key (`HashMap::remove`). -/
def serase {β : Type} (k : Nat) (l : List (Nat × β)) : List (Nat × β) :=
  l.filter (fun p => decide (p.1 ≠ k))

/-- Generic insert-or-overwrite association list (non-`Nat` keys). -/
def ainsert {κ β : Type} [DecidableEq κ] (k : κ) (v : β) : List (κ × β) → List (κ × β)
  | [] => [(k, v)]
  | (k', v') :: rest =>
    if k' = k then (k, v) :: rest else (k', v') :: ainsert k v rest

/-- Generic association-list lookup (first match). -/
def afind? {κ β : Type} [DecidableEq κ] (k : κ) : List (κ × β) → Option β
  | [] => none
  | (k', v) :: rest => if k' = k then some v else afind? k rest

/-! ### Core types (`chain-core/src/types.rs`) -/

/-- 20-byte address, abstracted to its numeric value. -/
abbrev Address : Type := Nat

/-- 32-byte hash digest, abstracted to its numeric value; `0` is `Hash::zero()`. -/
abbrev Hash : Type := Nat

/-! ### `chain-vm/src/error.rs` -/

/-- `VmError` (`chain-vm/src/error.rs`). -/
inductive VmError : Type
  | outOfGas (required available : Nat)
  | invalidTransaction (msg : String)
  | insufficientBalance (required available : Nat)
  | invalidNonce (expected actual : Nat)
  | accountNotFound (addr : Address)
  | state (msg : String)
  | serialization (msg : String)
  | contractExecution (msg : String)
  | other (msg : String)
  deriving DecidableEq, Repr

/-! ### `chain-vm/src/account.rs` -/

/-- `Account`: nonce, balance (`u64`), code hash, storage root. -/
structure Account : Type where
  nonce : Nat
  balance : Nat
  codeHash : Hash
  storageRoot : Hash
  deriving DecidableEq, Repr

namespace Account

/-- `Account::new()`. -/
def new : Account := ⟨0, 0, 0, 0⟩

/-- `Account::with_balance`. -/
def withBalance (balance : Nat) : Account := ⟨0, balance, 0, 0⟩

/-- `Account::is_empty`: `nonce == 0 && balance == 0 && code_hash == Hash::zero()`
(the storage root is not inspected, exactly as in the source). -/
def isEmpty (a : Account) : Bool :=
  a.nonce == 0 && a.balance == 0 && a.codeHash == 0

/-- `Account::increment_nonce`: unchecked `self.nonce += 1`; `none` models the
overflow panic at `nonce == u64::MAX`. -/
def incrementNonce (a : Account) : Option Account :=
  if a.nonce + 1 < U64 then some { a with nonce := a.nonce + 1 } else none

/-- `Account::add_balance`: `checked_add`, failing with a typed error on overflow. -/
def addBalance (a : Account) (amount : Nat) : Except VmError Account :=
  if a.balance + amount < U64 then Except.ok { a with balance := a.balance + amount }
  else Except.error (VmError.other "Balance overflow")

/-- `Account::sub_balance`: explicit comparison, `InsufficientBalance` on underflow. -/
def subBalance (a : Account) (amount : Nat) : Except VmError Account :=
  if a.balance < amount then
    Except.error (VmError.insufficientBalance amount a.balance)
  else Except.ok { a with balance := a.balance - amount }

end Account

/-! ### `chain-vm/src/gas.rs` -/

/-- `GasSchedule`. -/
structure GasSchedule : Type where
  txBase : Nat
  txDataPerByte : Nat
  accountCreation : Nat
  storageWrite : Nat
  storageRead : Nat
  balanceTransfer : Nat
  contractCall : Nat
  memoryPerByte : Nat
  cpuInstruction : Nat
  deriving DecidableEq, Repr

/-- `GasSchedule::default()`. -/
def GasSchedule.default : GasSchedule :=
  ⟨21000, 68, 32000, 20000, 800, 9000, 700, 3, 1⟩

/-- `GasSchedule::transaction_cost`: `tx_base + (data_size as u64 * tx_data_per_byte)`.
The `as u64` cast truncates; the unchecked `*` and `+` panic on overflow (`none`). -/
def GasSchedule.transactionCost (s : GasSchedule) (dataSize : Nat) : Option Nat :=
  match checkedMul (dataSize % U64) s.txDataPerByte with
  | none => none
  | some m => checkedAdd s.txBase m

/-- `GasMeter`: limit, consumed, schedule and per-operation breakdown. -/
structure GasMeter : Type where
  limit : Nat
  consumed : Nat
  schedule : GasSchedule
  breakdown : List (String × Nat)
  deriving DecidableEq, Repr

namespace GasMeter

/-- `GasMeter::new`. -/
def new (limit : Nat) (schedule : GasSchedule) : GasMeter :=
  ⟨limit, 0, schedule, []⟩

/-- `GasMeter::remaining`: `limit.saturating_sub(consumed)`. -/
def remaining (m : GasMeter) : Nat := m.limit - m.consumed

/-- `GasMeter::check_gas`: fails with `OutOfGas` when `consumed + required > limit`.
The unchecked `u64` sum panics (`none`) when it does not fit in 64 bits. -/
def checkGas (m : GasMeter) (required : Nat) : Option (Except VmError Unit) :=
  if m.consumed + required < U64 then
    if m.consumed + required > m.limit then
      some (Except.error (VmError.outOfGas required m.remaining))
    else some (Except.ok ())
  else none

/-- `GasMeter::consume`: check, then add to `consumed` and to the breakdown entry
(whose unchecked `+=` panics on overflow). An error leaves the meter unchanged
(the caller keeps the old meter). -/
def consume (m : GasMeter) (amount : Nat) (operation : String) :
    Option (Except VmError GasMeter) :=
  match m.checkGas amount with
  | none => none
  | some (Except.error e) => some (Except.error e)
  | some (Except.ok ()) =>
    let old := (afind? operation m.breakdown).getD 0
    if old + amount < U64 then
      some (Except.ok { m with
        consumed := m.consumed + amount,
        breakdown := ainsert operation (old + amount) m.breakdown })
    else none

/-- `GasMeter::consume_tx_base`. -/
def consumeTxBase (m : GasMeter) (dataSize : Nat) : Option (Except VmError GasMeter) :=
  match m.schedule.transactionCost dataSize with
  | none => none
  | some cost => m.consume cost "tx_base"

/-- `GasMeter::consume_transfer`. -/
def consumeTransfer (m : GasMeter) : Option (Except VmError GasMeter) :=
  m.consume m.schedule.balanceTransfer "transfer"

/-- `GasMeter::consume_account_creation`. -/
def consumeAccountCreation (m : GasMeter) : Option (Except VmError GasMeter) :=
  m.consume m.schedule.accountCreation "account_creation"

/-- `GasMeter::refund`: saturating subtraction on `consumed` and on the breakdown
entry (`Nat` subtraction is exactly `saturating_sub`). -/
def refund (m : GasMeter) (amount : Nat) (operation : String) : GasMeter :=
  { m with
    consumed := m.consumed - amount,
    breakdown :=
      match afind? operation m.breakdown with
      | none => m.breakdown
      | some cur => ainsert operation (cur - amount) m.breakdown }

/-- `GasMeter::reset`. -/
def reset (m : GasMeter) (newLimit : Nat) : GasMeter :=
  { m with limit := newLimit, consumed := 0, breakdown := [] }

end GasMeter

/-! ### `AccountChanges` (`chain-vm/src/account.rs`) -/

/-- `AccountChanges`: batched account / deletion / storage / code updates.
Storage values and code are byte strings (`List Nat`). -/
structure AccountChanges : Type where
  accounts : List (Address × Account)
  deleted : List Address
  storageChanges : List (Address × List (Hash × List Nat))
  codeChanges : List (Address × List Nat)
  deriving DecidableEq, Repr

namespace AccountChanges

/-- `AccountChanges::new()`. -/
def new : AccountChanges := ⟨[], [], [], []⟩

/-- `AccountChanges::update_account`: `HashMap::insert` (overwrite). -/
def updateAccount (c : AccountChanges) (address : Address) (account : Account) :
    AccountChanges :=
  { c with accounts := sinsert address account c.accounts }

/-- `AccountChanges::update_storage`. -/
def updateStorage (c : AccountChanges) (address : Address) (key : Hash)
    (value : List Nat) : AccountChanges :=
  let sub := (sfind? address c.storageChanges).getD []
  { c with storageChanges := sinsert address (sinsert key value sub) c.storageChanges }

/-- `AccountChanges::update_code`. -/
def updateCode (c : AccountChanges) (address : Address) (code : List Nat) :
    AccountChanges :=
  { c with codeChanges := sinsert address code c.codeChanges }

/-- `AccountChanges::is_empty`. -/
def isEmpty (c : AccountChanges) : Bool :=
  c.accounts.isEmpty && c.deleted.isEmpty && c.storageChanges.isEmpty
    && c.codeChanges.isEmpty

/-- A change set that performs at least one actual write when applied: a
storage entry with an empty inner map triggers no `set_storage` call, so
`is_empty` alone does not imply a state-root update. -/
def hasWrite (c : AccountChanges) : Bool :=
  !c.accounts.isEmpty || !c.deleted.isEmpty
    || c.storageChanges.any (fun p => !p.2.isEmpty) || !c.codeChanges.isEmpty

end AccountChanges

/-! ### `MemoryStateDB` (`chain-vm/src/state.rs`) -/

/-- In-memory state database: account, storage and code maps plus the cached
state root. -/
structure MemoryStateDB : Type where
  accounts : List (Address × Account)
  storage : List (Address × List (Hash × List Nat))
  code : List (Address × List Nat)
  stateRoot : Hash
  deriving DecidableEq, Repr

/-- The field stream fed to the blake3 hasher in `update_state_root`: for each
account, its address bytes, little-endian nonce and balance, code hash and
storage root.  Each `u64`/digest is abstracted to one `Nat` of the stream. -/
def encodeAccounts : List (Address × Account) → List Nat
  | [] => []
  | (a, acct) :: rest =>
    a :: acct.nonce :: acct.balance :: acct.codeHash :: acct.storageRoot
      :: encodeAccounts rest

/-- `sorted_accounts.sort_by_key(addr)`: canonical address ordering. -/
def sortByKey {β : Type} (l : List (Nat × β)) : List (Nat × β) :=
  l.foldl (fun acc p => sinsert p.1 p.2 acc) []

/-- The state root computed by `MemoryStateDB::update_state_root`, as a function
of the accounts map and the digest function standing in for blake3. -/
def rootOf (blake : List Nat → Nat) (accounts : List (Address × Account)) : Hash :=
  blake (encodeAccounts (sortByKey accounts))

/-- Executable stand-in digest used for concrete evaluations; the theorems
about the state root quantify over the digest function. -/
def blakeModel : List Nat → Nat :=
  fun l => l.foldl (fun a b => (a * 31 + b + 1) % 1000000007) 7

namespace MemoryStateDB

/-- `MemoryStateDB::new()`: empty maps, `state_root = Hash::zero()`. -/
def new : MemoryStateDB := ⟨[], [], [], 0⟩

/-- `MemoryStateDB::update_state_root`. -/
def updateStateRoot (blake : List Nat → Nat) (db : MemoryStateDB) : MemoryStateDB :=
  { db with stateRoot := rootOf blake db.accounts }

/-- `StateDB::get_account` (infallible on the memory backend). -/
def getAccount (db : MemoryStateDB) (address : Address) : Option Account :=
  sfind? address db.accounts

/-- `StateDB::set_account`: remove the entry when the account is empty, then
recompute the root. -/
def setAccount (blake : List Nat → Nat) (db : MemoryStateDB) (address : Address)
    (account : Account) : MemoryStateDB :=
  let accounts' :=
    if account.isEmpty then serase address db.accounts
    else sinsert address account db.accounts
  updateStateRoot blake { db with accounts := accounts' }

/-- `StateDB::delete_account`. -/
def deleteAccount (blake : List Nat → Nat) (db : MemoryStateDB) (address : Address) :
    MemoryStateDB :=
  updateStateRoot blake
    { db with
      accounts := serase address db.accounts,
      storage := serase address db.storage,
      code := serase address db.code }

/-- `StateDB::get_storage`. -/
def getStorage (db : MemoryStateDB) (address : Address) (key : Hash) :
    Option (List Nat) :=
  match sfind? address db.storage with
  | none => none
  | some sub => sfind? key sub

/-- `StateDB::set_storage`: an empty value removes the key, and the address's
submap when it becomes empty; then the root is recomputed. -/
def setStorage (blake : List Nat → Nat) (db : MemoryStateDB) (address : Address)
    (key : Hash) (value : List Nat) : MemoryStateDB :=
  let sub := (sfind? address db.storage).getD []
  let storage' :=
    if value.isEmpty then
      let sub' := serase key sub
      if sub'.isEmpty then serase address db.storage
      else sinsert address sub' db.storage
    else sinsert address (sinsert key value sub) db.storage
  updateStateRoot blake { db with storage := storage' }

/-- `StateDB::get_code`. -/
def getCode (db : MemoryStateDB) (address : Address) : Option (List Nat) :=
  sfind? address db.code

/-- `StateDB::set_code`: empty code removes the entry; the root is recomputed. -/
def setCode (blake : List Nat → Nat) (db : MemoryStateDB) (address : Address)
    (code : List Nat) : MemoryStateDB :=
  let code' :=
    if code.isEmpty then serase address db.code
    else sinsert address code db.code
  updateStateRoot blake { db with code := code' }

/-- The account-update loop of `apply_changes`. -/
def applyAccounts (blake : List Nat → Nat) (l : List (Address × Account))
    (db : MemoryStateDB) : MemoryStateDB :=
  l.foldl (fun d p => d.setAccount blake p.1 p.2) db

/-- The deletion loop of `apply_changes`. -/
def applyDeletes (blake : List Nat → Nat) (l : List Address)
    (db : MemoryStateDB) : MemoryStateDB :=
  l.foldl (fun d a => d.deleteAccount blake a) db

/-- The storage-write loop of `apply_changes` (nested per address). -/
def applyStorages (blake : List Nat → Nat)
    (l : List (Address × List (Hash × List Nat))) (db : MemoryStateDB) :
    MemoryStateDB :=
  l.foldl (fun d p => p.2.foldl (fun d2 q => d2.setStorage blake p.1 q.1 q.2) d) db

/-- The code-write loop of `apply_changes`. -/
def applyCodes (blake : List Nat → Nat) (l : List (Address × List Nat))
    (db : MemoryStateDB) : MemoryStateDB :=
  l.foldl (fun d p => d.setCode blake p.1 p.2) db

/-- `StateDB::apply_changes`: account updates, then deletions, then storage
writes, then code writes. -/
def applyChanges (blake : List Nat → Nat) (db : MemoryStateDB)
    (changes : AccountChanges) : MemoryStateDB :=
  applyCodes blake changes.codeChanges
    (applyStorages blake changes.storageChanges
      (applyDeletes blake changes.deleted
        (applyAccounts blake changes.accounts db)))

end MemoryStateDB

/-- `MemoryStateSnapshot`: a deep copy of all three maps and the root. -/
structure MemoryStateSnapshot : Type where
  accounts : List (Address × Account)
  storage : List (Address × List (Hash × List Nat))
  code : List (Address × List Nat)
  stateRoot : Hash
  deriving DecidableEq, Repr

/-- `StateDB::snapshot` on the memory backend. -/
def MemoryStateDB.snapshot (db : MemoryStateDB) : MemoryStateSnapshot :=
  ⟨db.accounts, db.storage, db.code, db.stateRoot⟩

/-- `MemoryStateSnapshot::fork`: a fresh `MemoryStateDB` with the snapshot's
contents. -/
def MemoryStateSnapshot.fork (s : MemoryStateSnapshot) : MemoryStateDB :=
  ⟨s.accounts, s.storage, s.code, s.stateRoot⟩

/-- The account observed at an address, defaulting to the empty account
(`unwrap_or_default`). -/
def readAccount (db : MemoryStateDB) (address : Address) : Account :=
  (db.getAccount address).getD Account.new

/-! ### Transactions as consumed by the executor (`chain-vm/src/executor.rs`)

The executor reads `tx.nonce`, `tx.gas_price`, `tx.gas_limit`, `tx.toAddr`
(a plain address there), `tx.value`, `tx.data` and the recovered sender
`tx.from()`.  All amounts flow through `u64` arithmetic and the `u64` account
balance.  `sender = none` models a failed ECDSA recovery. -/

structure Tx : Type where
  nonce : Nat
  gasPrice : Nat
  gasLimit : Nat
  toAddr : Address
  value : Nat
  data : List Nat
  sender : Option Address
  deriving DecidableEq, Repr

/-- `StateChange` (`chain-vm/src/executor.rs`). -/
inductive StateChange : Type
  | balanceChange (address : Address) (oldBalance newBalance : Nat)
  | nonceChange (address : Address) (oldNonce newNonce : Nat)
  | accountCreated (address : Address)
  | accountDeleted (address : Address)
  | storageChange (address : Address) (key : Hash)
      (oldValue newValue : Option (List Nat))
  | codeSet (address : Address) (codeHash : Hash)
  deriving DecidableEq, Repr

/-- `ExecutionResult`. -/
structure ExecutionResult : Type where
  success : Bool
  gasUsed : Nat
  stateChanges : List StateChange
  returnData : List Nat
  error : Option String
  gasRefund : Nat
  deriving DecidableEq, Repr

/-- `ExecutionResult::success`. -/
def ExecutionResult.mkSuccess (gasUsed : Nat) (stateChanges : List StateChange) :
    ExecutionResult :=
  ⟨true, gasUsed, stateChanges, [], none, 0⟩

/-- `ExecutionResult::failure`. -/
def ExecutionResult.mkFailure (gasUsed : Nat) (error : String) : ExecutionResult :=
  ⟨false, gasUsed, [], [], some error, 0⟩

/-- `ExecutionContext`. -/
structure ExecutionContext : Type where
  blockNumber : Nat
  timestamp : Nat
  gasLimit : Nat
  coinbase : Address
  deriving DecidableEq, Repr

namespace BalanceTransferEngine

/-- `BalanceTransferEngine::apply`, step for step.  The result pairs the
`ExecutionResult` with the state after the call (the state behind the
`SharedStateDB` reference); `none` models a panic of the unchecked `u64`
arithmetic, `Except.error` a propagated `VmError`. -/
def apply (blake : List Nat → Nat) (gasSchedule : GasSchedule) (tx : Tx)
    (db : MemoryStateDB) (context : ExecutionContext) :
    Option (Except VmError (ExecutionResult × MemoryStateDB)) :=
  -- `info!(..., tx.from()?, ..)`: a failed sender recovery propagates here
  match tx.sender with
  | none => some (Except.error (VmError.invalidTransaction "Invalid signature"))
  | some sender =>
  -- 1. Charge base transaction cost
  match (GasMeter.new tx.gasLimit gasSchedule).consumeTxBase tx.data.length with
  | none => none
  | some (Except.error e) => some (Except.error e)
  | some (Except.ok meter1) =>
  -- 2. Get sender account
  let senderAccount := (db.getAccount sender).getD Account.new
  -- 3. Verify nonce
  if senderAccount.nonce ≠ tx.nonce then
    some (Except.ok (ExecutionResult.mkFailure meter1.consumed
      ("Invalid nonce: expected " ++ toString senderAccount.nonce
        ++ ", got " ++ toString tx.nonce), db))
  else
  -- 4. Check balance for value + gas: `tx.value + (tx.gas_limit * tx.gas_price)`
  match checkedMul tx.gasLimit tx.gasPrice with
  | none => none
  | some limitCost =>
  match checkedAdd tx.value limitCost with
  | none => none
  | some totalCost =>
  if senderAccount.balance < totalCost then
    some (Except.ok (ExecutionResult.mkFailure meter1.consumed
      ("Insufficient balance: required " ++ toString totalCost
        ++ ", available " ++ toString senderAccount.balance), db))
  else
  -- 5. Charge for transfer
  match meter1.consumeTransfer with
  | none => none
  | some (Except.error e) => some (Except.error e)
  | some (Except.ok meter2) =>
  -- 6. Get or create recipient account
  let recipient := tx.toAddr
  let recipientExists := (db.getAccount recipient).isSome
  let recipientAccount := (db.getAccount recipient).getD Account.new
  -- 7. Charge for account creation if needed
  match
    (if !recipientExists && decide (0 < tx.value) then
      match meter2.consumeAccountCreation with
      | none => none
      | some (Except.error e) => some (Except.error e)
      | some (Except.ok m) =>
        some (Except.ok (m, [StateChange.accountCreated recipient]))
    else some (Except.ok (meter2, ([] : List StateChange)))) with
  | none => none
  | some (Except.error e) => some (Except.error e)
  | some (Except.ok (meter3, changes7)) =>
  -- 8. Perform the transfer
  match
    (if 0 < tx.value then
      match senderAccount.subBalance tx.value with
      | Except.error e => Except.error e
      | Except.ok senderDebited =>
        match recipientAccount.addBalance tx.value with
        | Except.error e => Except.error e
        | Except.ok recipientCredited =>
          Except.ok (senderDebited, recipientCredited,
            [StateChange.balanceChange sender senderAccount.balance
               senderDebited.balance,
             StateChange.balanceChange recipient recipientAccount.balance
               recipientCredited.balance])
    else Except.ok (senderAccount, recipientAccount, ([] : List StateChange))) with
  | Except.error e => some (Except.error e)
  | Except.ok (senderAfterTransfer, recipientFinal, changes8) =>
  -- 9. Update nonce
  match senderAfterTransfer.incrementNonce with
  | none => none
  | some senderBumped =>
  let changes9 := [StateChange.nonceChange sender senderAfterTransfer.nonce
    senderBumped.nonce]
  -- 10. Pay gas fees to coinbase: `gas_meter.consumed() * tx.gas_price`
  match checkedMul meter3.consumed tx.gasPrice with
  | none => none
  | some gasCost =>
  match senderBumped.subBalance gasCost with
  | Except.error e => some (Except.error e)
  | Except.ok senderFinal =>
  match ((db.getAccount context.coinbase).getD Account.new).addBalance gasCost with
  | Except.error e => some (Except.error e)
  | Except.ok coinbaseFinal =>
  -- 11. Apply changes to state: three `update_account` inserts, then commit
  let accountChanges :=
    ((AccountChanges.new.updateAccount sender senderFinal).updateAccount
      recipient recipientFinal).updateAccount context.coinbase coinbaseFinal
  some (Except.ok (ExecutionResult.mkSuccess meter3.consumed
    (changes7 ++ changes8 ++ changes9), db.applyChanges blake accountChanges))

end BalanceTransferEngine

namespace TransactionExecutor

/-- `TransactionExecutor::execute_contract_call`: charge the base cost, then
fail deterministically. -/
def executeContractCall (gasSchedule : GasSchedule) (tx : Tx) (db : MemoryStateDB) :
    Option (Except VmError (ExecutionResult × MemoryStateDB)) :=
  match (GasMeter.new tx.gasLimit gasSchedule).consumeTxBase tx.data.length with
  | none => none
  | some (Except.error e) => some (Except.error e)
  | some (Except.ok meter1) =>
    some (Except.ok (ExecutionResult.mkFailure meter1.consumed
      "Contract execution not yet implemented", db))

/-- `TransactionExecutor::execute`. -/
def execute (blake : List Nat → Nat) (gasSchedule : GasSchedule) (tx : Tx)
    (db : MemoryStateDB) (context : ExecutionContext) :
    Option (Except VmError (ExecutionResult × MemoryStateDB)) :=
  if tx.gasLimit = 0 then
    some (Except.ok (ExecutionResult.mkFailure 0 "Gas limit cannot be zero", db))
  else if context.gasLimit < tx.gasLimit then
    some (Except.ok
      (ExecutionResult.mkFailure 0 "Gas limit exceeds block gas limit", db))
  else if tx.data.isEmpty then
    BalanceTransferEngine.apply blake gasSchedule tx db context
  else
    executeContractCall gasSchedule tx db

/-- `TransactionExecutor::estimate_gas`: execute on a fork of a snapshot of the
state and return `gas_used + gas_used / 10` capped at the block gas limit; the
unchecked buffer addition panics (`none`) on `u64` overflow.  The original
state is only read (`snapshot`), never written. -/
def estimateGas (blake : List Nat → Nat) (gasSchedule : GasSchedule) (tx : Tx)
    (db : MemoryStateDB) (context : ExecutionContext) :
    Option (Except VmError Nat) :=
  let testState := (db.snapshot).fork
  match execute blake gasSchedule tx testState context with
  | none => none
  | some (Except.error e) => some (Except.error e)
  | some (Except.ok (result, _)) =>
    match checkedAdd result.gasUsed (result.gasUsed / 10) with
    | none => none
    | some estimated => some (Except.ok (min estimated context.gasLimit))

end TransactionExecutor

/-! ### Block headers (`chain-core/src/block.rs`) -/

/-- `BlockHeader`.  Extra data is a byte string; hashes are abstract digests. -/
structure BlockHeader : Type where
  parentHash : Hash
  number : Nat
  stateRoot : Hash
  transactionsRoot : Hash
  receiptsRoot : Hash
  difficulty : Nat
  timestamp : Nat
  extraData : List Nat
  nonce : Nat
  gasLimit : Nat
  gasUsed : Nat
  deriving DecidableEq, Repr

/-! ### Slashing detector (`chain-consensus/src/slashing.rs`) -/

/-- `DoubleSignEvidence`. -/
structure DoubleSignEvidence : Type where
  validatorIndex : Nat
  header1 : BlockHeader
  header2 : BlockHeader
  detectedAt : Nat
  deriving DecidableEq, Repr

/-- `SlashingOffence`. -/
inductive SlashingOffence : Type
  | doubleSigning (evidence : DoubleSignEvidence)
  | offline (validatorIndex : Nat) (missedSlots : Nat)
  deriving DecidableEq, Repr

/-- `SlashingDetector`: signed-block table keyed by `(validator, block number)`,
missed-slot counters, threshold. -/
structure SlashingDetector : Type where
  signedBlocks : List ((Nat × Nat) × BlockHeader)
  missedSlots : List (Nat × Nat)
  maxMissedSlots : Nat
  deriving DecidableEq, Repr

namespace SlashingDetector

/-- `SlashingDetector::new`. -/
def new (maxMissedSlots : Nat) : SlashingDetector := ⟨[], [], maxMissedSlots⟩

/-- `SlashingDetector::record_signature`.  `hashFn` stands for
`BlockHeader::hash()` (Keccak over the deterministic encoding, which never
fails on a well-formed header); `now` is the wall-clock read stamped into the
evidence.  On a conflicting signature the detector is returned unchanged, and
on a duplicate of the stored header nothing happens, exactly as in the source. -/
def recordSignature (hashFn : BlockHeader → Hash) (d : SlashingDetector)
    (validatorIndex : Nat) (header : BlockHeader) (now : Nat) :
    SlashingDetector × Option SlashingOffence :=
  let key := (validatorIndex, header.number)
  match afind? key d.signedBlocks with
  | some existing =>
    if hashFn existing ≠ hashFn header then
      (d, some (SlashingOffence.doubleSigning
        ⟨validatorIndex, existing, header, now⟩))
    else (d, none)
  | none => ({ d with signedBlocks := ainsert key header d.signedBlocks }, none)

/-- `SlashingDetector::record_missed_slot`: increment the counter, emit
`Offline` when it reaches the threshold. -/
def recordMissedSlot (d : SlashingDetector) (validatorIndex : Nat) :
    SlashingDetector × Option SlashingOffence :=
  let missed := (afind? validatorIndex d.missedSlots).getD 0 + 1
  let d' := { d with missedSlots := ainsert validatorIndex missed d.missedSlots }
  if d.maxMissedSlots ≤ missed then
    (d', some (SlashingOffence.offline validatorIndex missed))
  else (d', none)

/-- `SlashingDetector::reset_missed_slots`. -/
def resetMissedSlots (d : SlashingDetector) (validatorIndex : Nat) :
    SlashingDetector :=
  { d with missedSlots := (d.missedSlots).filter (fun p => p.1 ≠ validatorIndex) }

end SlashingDetector

/-! ### PoA consensus engine (`chain-consensus/src/poa/engine.rs`)

The engine is modelled with the fields its `step` function reads and writes;
the blake3-derived `VrfSelector::select_validator` is the abstract function
`select`, and the wall clock (`SystemTime::now`) is the explicit `now`
argument.  Events sent over the `event_sender` channel are collected in the
returned list. -/

/-- `PoAState`. -/
inductive PoAState : Type
  | Waiting
  | Proposing
  | Validating
  deriving DecidableEq, Repr

/-- `ConsensusEvent`. -/
inductive ConsensusEvent : Type
  | slotStarted (slot : Nat) (validator : Option Nat)
  | shouldPropose (slot : Nat)
  | blockReceived (header : BlockHeader)
  | slashingDetected (offence : SlashingOffence)
  deriving DecidableEq, Repr

/-- `StepContext` (`chain-consensus/src/traits.rs`). -/
structure StepContext : Type where
  blockNumber : Nat
  parentHash : Hash
  timestamp : Nat
  validatorIndex : Option Nat
  deriving DecidableEq, Repr

/-- `StepResult`; timeouts are in seconds. -/
inductive StepResult : Type
  | Continue (timeout : Nat)
  | Propose (header : BlockHeader) (timeout : Nat)
  | Wait (timeout : Nat)
  | Complete
  deriving DecidableEq, Repr

/-- The `PoAEngine` state consumed by `step`: slot duration (from the config),
genesis timestamp, current slot, engine state, local validator index, slashing
detector and the VRF selection function. -/
structure PoAEngine : Type where
  slotDuration : Nat
  genesisTimestamp : Nat
  currentSlot : Nat
  state : PoAState
  localValidatorIndex : Option Nat
  slashingDetector : SlashingDetector
  select : Nat → Nat

namespace PoAEngine

/-- `PoAEngine::current_slot_from_timestamp`. -/
def currentSlotFromTimestamp (e : PoAEngine) (timestamp : Nat) : Nat :=
  if timestamp < e.genesisTimestamp then 0
  else (timestamp - e.genesisTimestamp) / e.slotDuration

/-- `PoAEngine::slot_timestamp`. -/
def slotTimestamp (e : PoAEngine) (slot : Nat) : Nat :=
  e.genesisTimestamp + slot * e.slotDuration

/-- `PoAEngine::get_proposer_for_slot`. -/
def getProposerForSlot (e : PoAEngine) (slot : Nat) : Nat := e.select slot

/-- `PoAEngine::is_proposer_for_slot`. -/
def isProposerForSlot (e : PoAEngine) (slot : Nat) : Bool :=
  match e.localValidatorIndex with
  | some localIndex => e.getProposerForSlot slot == localIndex
  | none => false

/-- `PoAEngine::should_propose` (re-reads the clock, passed as `now`). -/
def shouldPropose (e : PoAEngine) (now : Nat) : Bool :=
  match e.localValidatorIndex with
  | none => false
  | some _ =>
    e.isProposerForSlot (e.currentSlotFromTimestamp now)
      && e.state == PoAState.Waiting

/-- The Rust half-open range `a..b`. -/
def rustRange (a b : Nat) : List Nat := List.range' a (b - a)

/-- The missed-slot loop body: record a missed slot for the expected proposer
and forward any offence as a `SlashingDetected` event. -/
def recordMissedLoop (e : PoAEngine) (slots : List Nat) :
    SlashingDetector × List ConsensusEvent :=
  slots.foldl
    (fun (acc : SlashingDetector × List ConsensusEvent) slot =>
      let expectedProposer := e.getProposerForSlot slot
      let (d', offence) := acc.1.recordMissedSlot expectedProposer
      match offence with
      | some off => (d', acc.2 ++ [ConsensusEvent.slashingDetected off])
      | none => (d', acc.2))
    (e.slashingDetector, [])

/-- `PoAEngine::step` (`Engine::step`), with the wall clock as `now`.  Returns
the engine after the step, the `StepResult` handed to the driver, and the
events sent on the channel, in emission order. -/
def step (e : PoAEngine) (ctx : StepContext) (now : Nat) :
    PoAEngine × StepResult × List ConsensusEvent :=
  let currentSlot := e.currentSlotFromTimestamp now
  -- slot-advance branch: update `self.current_slot`, then iterate
  -- `(self.current_slot - 1)..current_slot` (after the update!)
  let (e1, events1) :=
    if e.currentSlot < currentSlot then
      let eAdv := { e with currentSlot := currentSlot }
      let (d', missedEvents) := eAdv.recordMissedLoop
        (rustRange (eAdv.currentSlot - 1) currentSlot)
      let eRec := { eAdv with slashingDetector := d' }
      (eRec, missedEvents ++
        [ConsensusEvent.slotStarted currentSlot
          (if eRec.isProposerForSlot currentSlot then eRec.localValidatorIndex
           else none)])
    else (e, [])
  if e1.shouldPropose now then
    let header : BlockHeader :=
      { parentHash := ctx.parentHash
        number := ctx.blockNumber
        stateRoot := 0
        transactionsRoot := 0
        receiptsRoot := 0
        gasLimit := 1000000
        gasUsed := 0
        difficulty := 1
        timestamp := now
        extraData := []
        nonce := currentSlot }
    ({ e1 with state := PoAState.Proposing },
     StepResult.Propose header e1.slotDuration,
     events1 ++ [ConsensusEvent.shouldPropose currentSlot])
  else
    let nextSlotTime := e1.slotTimestamp (currentSlot + 1)
    let timeout := max (nextSlotTime - now) 1
    match e1.state with
    | PoAState.Waiting => (e1, StepResult.Continue timeout, events1)
    | PoAState.Proposing =>
      ({ e1 with state := PoAState.Waiting }, StepResult.Wait timeout, events1)
    | PoAState.Validating => (e1, StepResult.Continue timeout, events1)

end PoAEngine

/-! ### Sequences of operations (for the invariant claims) -/

/-- A `consume` or `refund` call on the gas meter. -/
inductive GasOp : Type
  | consume (amount : Nat) (operation : String)
  | refund (amount : Nat) (operation : String)
  deriving DecidableEq, Repr

/-- Run a sequence of gas-meter operations.  A failed `consume` returns its
error to the caller and leaves the meter unchanged (`check_gas` fails before
any mutation); a panic (`none`) aborts the run. -/
def runOps (m : GasMeter) : List GasOp → Option GasMeter
  | [] => some m
  | GasOp.consume n op :: rest =>
    match m.consume n op with
    | none => none
    | some (Except.error _) => runOps m rest
    | some (Except.ok m') => runOps m' rest
  | GasOp.refund n op :: rest => runOps (m.refund n op) rest

/-- A sequence of `apply_changes` calls. -/
def applyAll (blake : List Nat → Nat) (db : MemoryStateDB)
    (cs : List AccountChanges) : MemoryStateDB :=
  cs.foldl (MemoryStateDB.applyChanges blake) db

/-- The state root is the digest of the current accounts map (established by
every individual write, since each ends in `update_state_root`). -/
def RootInv (blake : List Nat → Nat) (db : MemoryStateDB) : Prop :=
  db.stateRoot = rootOf blake db.accounts

/-- Keys strictly increase along the list (the canonical-map invariant). -/
def SortedKeys {β : Type} (l : List (Nat × β)) : Prop :=
  l.Pairwise (fun p q => p.1 < q.1)

/-- Pairwise-distinct keys. -/
def NodupKeys {β : Type} (l : List (Nat × β)) : Prop :=
  l.Pairwise (fun p q => p.1 ≠ q.1)

/-! ### Concrete scenario inputs (spec §8, S1–S4) -/

/-- Scenario S1's transaction: nonce 0, gas price 1, gas limit 100000, to the
recipient address 2, value 100, empty data, signed by the sender address 1. -/
def txS1 : Tx := ⟨0, 1, 100000, 2, 100, [], some 1⟩

/-- Scenario S1's initial state: the sender holds 1000000 at nonce 0. -/
def dbS1 : MemoryStateDB := ⟨[(1, Account.withBalance 1000000)], [], [], 0⟩

/-- Scenario S1's execution context with coinbase address 3. -/
def ctxS1 : ExecutionContext := ⟨1, 1000000, 1000000, 3⟩

/-- The execution result of S1 (computed by the model): 62000 gas, success. -/
def resS1 : ExecutionResult :=
  ⟨true, 62000, [StateChange.accountCreated 2,
    StateChange.balanceChange 1 1000000 999900,
    StateChange.balanceChange 2 0 100,
    StateChange.nonceChange 1 0 1], [], none, 0⟩

/-- The state committed by S1 (root computed with `blakeModel`). -/
def dbS1After : MemoryStateDB :=
  ⟨[(1, ⟨1, 937900, 0, 0⟩), (2, ⟨0, 100, 0, 0⟩), (3, ⟨0, 62000, 0, 0⟩)],
    [], [], 561755544⟩

/-- A self-transfer: S1 with the recipient set to the sender address 1. -/
def txSelf : Tx := ⟨0, 1, 100000, 1, 100, [], some 1⟩

/-- The execution result of the self-transfer (computed by the model). -/
def resSelf : ExecutionResult :=
  ⟨true, 30000, [StateChange.balanceChange 1 1000000 999900,
    StateChange.balanceChange 1 1000000 1000100,
    StateChange.nonceChange 1 0 1], [], none, 0⟩

/-- The state committed by the self-transfer: the sender's entry is the
recipient copy — balance credited, nonce not bumped, no fee debited. -/
def dbSelfAfter : MemoryStateDB :=
  ⟨[(1, ⟨0, 1000100, 0, 0⟩), (3, ⟨0, 30000, 0, 0⟩)], [], [], 744791640⟩

/-- Scenario S3's initial state: the sender holds only 10. -/
def dbS3 : MemoryStateDB := ⟨[(1, Account.withBalance 10)], [], [], 0⟩

/-- S1's context with the coinbase set to the sender address 1. -/
def ctxCbSender : ExecutionContext := ⟨1, 1000000, 1000000, 1⟩

/-- The execution result of S1 under `ctxCbSender` (computed by the model). -/
def resCbSender : ExecutionResult :=
  ⟨true, 62000, [StateChange.accountCreated 2,
    StateChange.balanceChange 1 1000000 999900,
    StateChange.balanceChange 2 0 100,
    StateChange.nonceChange 1 0 1], [], none, 0⟩

/-- The state committed by S1 under `ctxCbSender`: the sender's entry is the
coinbase copy — fee credited, value and fee never debited, nonce not bumped. -/
def dbCbSenderAfter : MemoryStateDB :=
  ⟨[(1, ⟨0, 1062000, 0, 0⟩), (2, ⟨0, 100, 0, 0⟩)], [], [], 516683902⟩

/-- A demonstration meter run: consume, partial refund, consume to the brim. -/
def gasOpsDemo : List GasOp :=
  [GasOp.consume 1000 "a", GasOp.refund 400 "a", GasOp.consume 99000 "b"]

/-- The meter `gasOpsDemo` produces from a fresh meter with limit 100000
(computed by the model). -/
def meterDemo : GasMeter :=
  ⟨100000, 99600, GasSchedule.default, [("a", 600), ("b", 99000)]⟩

/-- Scenario S4's first header: number 7, nonce 123 (spec §8). -/
def hdrA : BlockHeader := ⟨0, 7, 0, 0, 0, 1, 1000007, [], 123, 1000000, 0⟩

/-- Scenario S4's second header: number 7, nonce 456. -/
def hdrB : BlockHeader := ⟨0, 7, 0, 0, 0, 1, 1000007, [], 456, 1000000, 0⟩

/-- A PoA engine (slot duration 1, genesis 0) that last observed slot 0, with
no local validator and proposer selection standing in as `slot % 3`. -/
def engSkip : PoAEngine :=
  ⟨1, 0, 0, PoAState.Waiting, none, SlashingDetector.new 10, fun slot => slot % 3⟩

/-- Stepping `engSkip` at wall-clock second 3: slots 1 and 2 were skipped
since the last observed slot. -/
def stepSkip : PoAEngine × StepResult × List ConsensusEvent :=
  engSkip.step ⟨1, 0, 3, none⟩ 3

/-! ### Lemmas about the sorted association maps -/

theorem sfind?_sinsert_self {β : Type} (k : Nat) (v : β) (l : List (Nat × β)) :
    sfind? k (sinsert k v l) = some v := by
  induction l with
  | nil => simp [sinsert, sfind?]
  | cons p rest ih =>
    obtain ⟨k', v'⟩ := p
    by_cases h1 : k < k'
    · simp [sinsert, sfind?, h1]
    · by_cases h2 : k = k'
      · simp [sinsert, sfind?, h1, h2]
      · have : k' ≠ k := fun h => h2 h.symm
        simp [sinsert, sfind?, h1, h2, this, ih]

theorem sfind?_sinsert_ne {β : Type} {k j : Nat} (v : β) (l : List (Nat × β))
    (hne : k ≠ j) : sfind? j (sinsert k v l) = sfind? j l := by
  induction l with
  | nil => simp [sinsert, sfind?, hne]
  | cons p rest ih =>
    obtain ⟨k', v'⟩ := p
    by_cases h1 : k < k'
    · simp [sinsert, sfind?, h1, hne]
    · by_cases h2 : k = k'
      · subst h2
        simp [sinsert, sfind?, h1, hne]
      · simp only [sinsert, if_neg h1, if_neg h2, sfind?]
        by_cases h3 : k' = j
        · simp [h3]
        · simp [h3, ih]

theorem sfind?_serase_self {β : Type} (k : Nat) (l : List (Nat × β)) :
    sfind? k (serase k l) = none := by
  induction l with
  | nil => simp [serase, sfind?]
  | cons p rest ih =>
    obtain ⟨k', v'⟩ := p
    by_cases h : k' = k
    · simpa [serase, List.filter, h] using ih
    · simpa [serase, List.filter, h, sfind?] using ih

theorem sfind?_serase_ne {β : Type} {k j : Nat} (l : List (Nat × β))
    (hne : k ≠ j) : sfind? j (serase k l) = sfind? j l := by
  have hj : j ≠ k := fun h => hne h.symm
  induction l with
  | nil => simp [serase, sfind?]
  | cons p rest ih =>
    obtain ⟨k', v'⟩ := p
    by_cases h : k' = k
    · subst h
      have : k' ≠ j := hne
      simpa [serase, List.filter, sfind?, this] using ih
    · by_cases h2 : k' = j
      · simp [serase, List.filter, h, sfind?, h2, hj]
      · simpa [serase, List.filter, h, sfind?, h2] using ih

theorem afind?_ainsert_self {κ β : Type} [DecidableEq κ] (k : κ) (v : β)
    (l : List (κ × β)) : afind? k (ainsert k v l) = some v := by
  induction l with
  | nil => simp [ainsert, afind?]
  | cons p rest ih =>
    obtain ⟨k', v'⟩ := p
    by_cases h : k' = k
    · simp [ainsert, afind?, h]
    · simp [ainsert, afind?, h, ih]

theorem afind?_ainsert_ne {κ β : Type} [DecidableEq κ] {k j : κ} (v : β)
    (l : List (κ × β)) (hne : k ≠ j) : afind? j (ainsert k v l) = afind? j l := by
  have hj : ¬k = j := hne
  have hjk : ¬j = k := fun hh => hne hh.symm
  induction l with
  | nil => simp [ainsert, afind?, hj]
  | cons p rest ih =>
    obtain ⟨k', v'⟩ := p
    by_cases h : k' = k
    · subst h
      simp [ainsert, afind?, hj]
    · by_cases h2 : k' = j
      · simp [ainsert, afind?, h, h2, hjk]
      · simp [ainsert, afind?, h, h2, ih]

theorem NodupKeys.of_sortedKeys {β : Type} {l : List (Nat × β)}
    (h : SortedKeys l) : NodupKeys l :=
  h.imp (fun hlt => Nat.ne_of_lt hlt)

theorem mem_sinsert {β : Type} {k : Nat} {v : β} {l : List (Nat × β)}
    {q : Nat × β} (hq : q ∈ sinsert k v l) : q = (k, v) ∨ q ∈ l := by
  induction l with
  | nil => simpa [sinsert] using hq
  | cons p rest ih =>
    obtain ⟨k', v'⟩ := p
    by_cases h1 : k < k'
    · simp only [sinsert, if_pos h1, List.mem_cons] at hq
      rcases hq with hq | hq | hq
      · exact Or.inl hq
      · exact Or.inr (by simp [hq])
      · exact Or.inr (List.mem_cons_of_mem _ hq)
    · by_cases h2 : k = k'
      · simp only [sinsert, if_neg h1, if_pos h2, List.mem_cons] at hq
        rcases hq with hq | hq
        · exact Or.inl hq
        · exact Or.inr (List.mem_cons_of_mem _ hq)
      · simp only [sinsert, if_neg h1, if_neg h2, List.mem_cons] at hq
        rcases hq with hq | hq
        · exact Or.inr (by simp [hq])
        · rcases ih hq with hq | hq
          · exact Or.inl hq
          · exact Or.inr (List.mem_cons_of_mem _ hq)

theorem sortedKeys_sinsert {β : Type} {l : List (Nat × β)} (k : Nat) (v : β)
    (h : SortedKeys l) : SortedKeys (sinsert k v l) := by
  induction l with
  | nil => simp [sinsert, SortedKeys]
  | cons p rest ih =>
    obtain ⟨k', v'⟩ := p
    rw [SortedKeys, List.pairwise_cons] at h
    obtain ⟨hhead, htail⟩ := h
    by_cases h1 : k < k'
    · rw [SortedKeys]
      simp only [sinsert, if_pos h1]
      refine List.Pairwise.cons ?_ (List.Pairwise.cons hhead htail)
      intro q hq
      simp only [List.mem_cons] at hq
      rcases hq with hq | hq
      · simp [hq, h1]
      · exact Nat.lt_trans h1 (hhead q hq)
    · by_cases h2 : k = k'
      · rw [SortedKeys]
        simp only [sinsert, if_neg h1, if_pos h2]
        refine List.Pairwise.cons ?_ htail
        intro q hq
        simpa [h2] using hhead q hq
      · rw [SortedKeys]
        simp only [sinsert, if_neg h1, if_neg h2]
        have hk'k : k' < k := by omega
        refine List.Pairwise.cons ?_ (ih htail)
        intro q hq
        rcases mem_sinsert hq with hq | hq
        · simp [hq, hk'k]
        · exact hhead q hq

theorem sfind?_eq_none_of_forall {β : Type} {l : List (Nat × β)} {a : Nat}
    (h : ∀ p ∈ l, p.1 ≠ a) : sfind? a l = none := by
  induction l with
  | nil => rfl
  | cons p rest ih =>
    obtain ⟨k', v'⟩ := p
    have hk : k' ≠ a := h (k', v') (List.mem_cons_self _ _)
    simp only [sfind?, if_neg hk]
    exact ih (fun q hq => h q (List.mem_cons_of_mem _ hq))

/-! ### Read lemmas for `setAccount` and the account-update loop -/

theorem getAccount_setAccount_self (blake : List Nat → Nat) (db : MemoryStateDB)
    (a : Address) (v : Account) :
    (db.setAccount blake a v).getAccount a
      = (if v.isEmpty then none else some v) := by
  by_cases h : v.isEmpty
  · simp [MemoryStateDB.setAccount, MemoryStateDB.getAccount,
      MemoryStateDB.updateStateRoot, h, sfind?_serase_self]
  · simp [MemoryStateDB.setAccount, MemoryStateDB.getAccount,
      MemoryStateDB.updateStateRoot, h, sfind?_sinsert_self]

theorem getAccount_setAccount_ne (blake : List Nat → Nat) (db : MemoryStateDB)
    {a b : Address} (v : Account) (hne : a ≠ b) :
    (db.setAccount blake a v).getAccount b = db.getAccount b := by
  by_cases h : v.isEmpty
  · simp [MemoryStateDB.setAccount, MemoryStateDB.getAccount,
      MemoryStateDB.updateStateRoot, h, sfind?_serase_ne _ hne]
  · simp [MemoryStateDB.setAccount, MemoryStateDB.getAccount,
      MemoryStateDB.updateStateRoot, h, sfind?_sinsert_ne _ _ hne]

theorem account_isEmpty_fields {v : Account} (h : v.isEmpty = true) :
    v.nonce = 0 ∧ v.balance = 0 := by
  rw [Account.isEmpty] at h
  simp only [Bool.and_eq_true, beq_iff_eq] at h
  exact ⟨h.1.1, h.1.2⟩

theorem readAccount_setAccount_self (blake : List Nat → Nat) (db : MemoryStateDB)
    (a : Address) (v : Account) :
    (readAccount (db.setAccount blake a v) a).balance = v.balance
      ∧ (readAccount (db.setAccount blake a v) a).nonce = v.nonce := by
  rw [readAccount, getAccount_setAccount_self]
  by_cases h : v.isEmpty
  · obtain ⟨hn, hb⟩ := account_isEmpty_fields h
    simp [h, Account.new, hn, hb]
  · simp [h]

theorem readAccount_setAccount_ne (blake : List Nat → Nat) (db : MemoryStateDB)
    {a b : Address} (v : Account) (hne : a ≠ b) :
    readAccount (db.setAccount blake a v) b = readAccount db b := by
  rw [readAccount, readAccount, getAccount_setAccount_ne blake db v hne]

theorem applyAccounts_nil (blake : List Nat → Nat) (db : MemoryStateDB) :
    MemoryStateDB.applyAccounts blake [] db = db := rfl

theorem applyAccounts_cons (blake : List Nat → Nat) (k : Address) (w : Account)
    (rest : List (Address × Account)) (db : MemoryStateDB) :
    MemoryStateDB.applyAccounts blake ((k, w) :: rest) db
      = MemoryStateDB.applyAccounts blake rest (db.setAccount blake k w) := rfl

theorem getAccount_applyAccounts_of_none (blake : List Nat → Nat)
    {l : List (Address × Account)} {a : Address}
    (hfind : sfind? a l = none) (db : MemoryStateDB) :
    (MemoryStateDB.applyAccounts blake l db).getAccount a = db.getAccount a := by
  induction l generalizing db with
  | nil => rfl
  | cons p rest ih =>
    obtain ⟨k, w⟩ := p
    rw [sfind?] at hfind
    by_cases hk : k = a
    · simp [hk] at hfind
    · rw [if_neg hk] at hfind
      rw [applyAccounts_cons, ih hfind, getAccount_setAccount_ne blake db w hk]

theorem readAccount_applyAccounts_of_find (blake : List Nat → Nat)
    {l : List (Address × Account)} {a : Address} {v : Account}
    (hnd : NodupKeys l) (hfind : sfind? a l = some v) (db : MemoryStateDB) :
    (readAccount (MemoryStateDB.applyAccounts blake l db) a).balance = v.balance
      ∧ (readAccount (MemoryStateDB.applyAccounts blake l db) a).nonce
          = v.nonce := by
  induction l generalizing db with
  | nil => simp [sfind?] at hfind
  | cons p rest ih =>
    obtain ⟨k, w⟩ := p
    rw [NodupKeys, List.pairwise_cons] at hnd
    obtain ⟨hhead, htail⟩ := hnd
    rw [sfind?] at hfind
    by_cases hk : k = a
    · rw [if_pos hk] at hfind
      injection hfind with hv
      subst hv
      subst hk
      have hnone : sfind? k rest = none :=
        sfind?_eq_none_of_forall (fun q hq => (hhead q hq).symm)
      rw [applyAccounts_cons]
      have hget := getAccount_applyAccounts_of_none blake hnone
        (db.setAccount blake k w)
      have hread : readAccount
          (MemoryStateDB.applyAccounts blake rest (db.setAccount blake k w)) k
          = readAccount (db.setAccount blake k w) k := by
        rw [readAccount, readAccount, hget]
      rw [hread]
      exact readAccount_setAccount_self blake db k w
    · rw [if_neg hk] at hfind
      rw [applyAccounts_cons]
      exact ih htail hfind (db.setAccount blake k w)

/-! ### Inversion lemmas for the arithmetic and metering primitives -/

theorem checkedAdd_some {a b c : Nat} (h : checkedAdd a b = some c) :
    c = a + b ∧ a + b < U64 := by
  rw [checkedAdd] at h
  by_cases hlt : a + b < U64
  · rw [if_pos hlt] at h
    injection h with h
    exact ⟨h.symm, hlt⟩
  · rw [if_neg hlt] at h
    exact absurd h (by simp)

theorem checkedMul_some {a b c : Nat} (h : checkedMul a b = some c) :
    c = a * b ∧ a * b < U64 := by
  rw [checkedMul] at h
  by_cases hlt : a * b < U64
  · rw [if_pos hlt] at h
    injection h with h
    exact ⟨h.symm, hlt⟩
  · rw [if_neg hlt] at h
    exact absurd h (by simp)

theorem subBalance_ok {a : Account} {n : Nat} {b : Account}
    (h : a.subBalance n = Except.ok b) :
    n ≤ a.balance ∧ b.balance = a.balance - n ∧ b.nonce = a.nonce := by
  rw [Account.subBalance] at h
  by_cases hlt : a.balance < n
  · rw [if_pos hlt] at h
    exact absurd h (by simp)
  · rw [if_neg hlt] at h
    injection h with h
    subst h
    exact ⟨Nat.le_of_not_lt hlt, rfl, rfl⟩

theorem addBalance_ok {a : Account} {n : Nat} {b : Account}
    (h : a.addBalance n = Except.ok b) :
    b.balance = a.balance + n ∧ b.nonce = a.nonce := by
  rw [Account.addBalance] at h
  by_cases hlt : a.balance + n < U64
  · rw [if_pos hlt] at h
    injection h with h
    subst h
    exact ⟨rfl, rfl⟩
  · rw [if_neg hlt] at h
    exact absurd h (by simp)

theorem incrementNonce_some {a b : Account} (h : a.incrementNonce = some b) :
    b.nonce = a.nonce + 1 ∧ b.balance = a.balance := by
  rw [Account.incrementNonce] at h
  by_cases hlt : a.nonce + 1 < U64
  · rw [if_pos hlt] at h
    injection h with h
    subst h
    exact ⟨rfl, rfl⟩
  · rw [if_neg hlt] at h
    exact absurd h (by simp)

theorem consume_ok {m : GasMeter} {n : Nat} {op : String} {m' : GasMeter}
    (h : m.consume n op = some (Except.ok m')) :
    m'.consumed = m.consumed + n ∧ m'.consumed ≤ m.limit
      ∧ m'.limit = m.limit ∧ m'.schedule = m.schedule := by
  rw [GasMeter.consume, GasMeter.checkGas] at h
  by_cases h1 : m.consumed + n < U64
  · rw [if_pos h1] at h
    by_cases h2 : m.consumed + n > m.limit
    · rw [if_pos h2] at h
      exact absurd h (by simp)
    · rw [if_neg h2] at h
      simp only at h
      by_cases h3 : (afind? op m.breakdown).getD 0 + n < U64
      · rw [if_pos h3] at h
        injection h with h
        injection h with h
        subst h
        exact ⟨rfl, Nat.le_of_not_lt (by simpa using h2), rfl, rfl⟩
      · rw [if_neg h3] at h
        exact absurd h (by simp)
  · rw [if_neg h1] at h
    exact absurd h (by simp)

theorem consumeTxBase_ok {m : GasMeter} {dataSize : Nat} {m' : GasMeter}
    (h : m.consumeTxBase dataSize = some (Except.ok m')) :
    m'.consumed = m.consumed
        + (m.schedule.txBase + (dataSize % U64) * m.schedule.txDataPerByte)
      ∧ m'.consumed ≤ m.limit ∧ m'.limit = m.limit
      ∧ m'.schedule = m.schedule := by
  rw [GasMeter.consumeTxBase] at h
  rcases hcost : m.schedule.transactionCost dataSize with _ | cost
  · rw [hcost] at h
    exact absurd h (by simp)
  · rw [hcost] at h
    have hc := consume_ok h
    rw [GasSchedule.transactionCost] at hcost
    rcases hmul : checkedMul (dataSize % U64) m.schedule.txDataPerByte with _ | mv
    · rw [hmul] at hcost
      exact absurd hcost (by simp)
    · rw [hmul] at hcost
      obtain ⟨hmv, _⟩ := checkedMul_some hmul
      obtain ⟨hcv, _⟩ := checkedAdd_some hcost
      exact ⟨by rw [hc.1, hcv, hmv], hc.2.1, hc.2.2.1, hc.2.2.2⟩

theorem consumeTransfer_ok {m : GasMeter} {m' : GasMeter}
    (h : m.consumeTransfer = some (Except.ok m')) :
    m'.consumed = m.consumed + m.schedule.balanceTransfer
      ∧ m'.consumed ≤ m.limit ∧ m'.limit = m.limit
      ∧ m'.schedule = m.schedule :=
  consume_ok h

theorem consumeAccountCreation_ok {m : GasMeter} {m' : GasMeter}
    (h : m.consumeAccountCreation = some (Except.ok m')) :
    m'.consumed = m.consumed + m.schedule.accountCreation
      ∧ m'.consumed ≤ m.limit ∧ m'.limit = m.limit
      ∧ m'.schedule = m.schedule :=
  consume_ok h

/-! ### Characterisation of the successful `apply` path -/

/-- Inverting a successful run of `BalanceTransferEngine::apply`: the sender
was recoverable, and the committed change set consists of exactly the three
`update_account` inserts — sender debited by value and fee with the nonce
bumped, recipient credited with the value, coinbase credited with the fee —
each computed from the account loaded from the pre-state. -/
theorem apply_ok_success {blake : List Nat → Nat} {sched : GasSchedule} {tx : Tx}
    {db : MemoryStateDB} {ctx : ExecutionContext} {res : ExecutionResult}
    {db' : MemoryStateDB}
    (hOk : BalanceTransferEngine.apply blake sched tx db ctx
      = some (Except.ok (res, db')))
    (hSucc : res.success = true) :
    ∃ s senderFinal recipientFinal coinbaseFinal,
      tx.sender = some s
      ∧ db' = db.applyChanges blake
          ⟨sinsert ctx.coinbase coinbaseFinal (sinsert tx.toAddr recipientFinal
            (sinsert s senderFinal [])), [], [], []⟩
      ∧ senderFinal.balance + tx.value + res.gasUsed * tx.gasPrice
          = (readAccount db s).balance
      ∧ senderFinal.nonce = (readAccount db s).nonce + 1
      ∧ recipientFinal.balance = (readAccount db tx.toAddr).balance + tx.value
      ∧ recipientFinal.nonce = (readAccount db tx.toAddr).nonce
      ∧ coinbaseFinal.balance
          = (readAccount db ctx.coinbase).balance + res.gasUsed * tx.gasPrice
      ∧ coinbaseFinal.nonce = (readAccount db ctx.coinbase).nonce := by
  rw [BalanceTransferEngine.apply] at hOk
  rcases hs : tx.sender with _ | s
  · rw [hs] at hOk
    simp at hOk
  rw [hs] at hOk
  simp only [] at hOk
  rcases hbase : (GasMeter.new tx.gasLimit sched).consumeTxBase tx.data.length
    with _ | er1
  · rw [hbase] at hOk
    simp at hOk
  rcases er1 with e | meter1
  · rw [hbase] at hOk
    simp at hOk
  rw [hbase] at hOk
  simp only [] at hOk
  by_cases hnonce : ((db.getAccount s).getD Account.new).nonce ≠ tx.nonce
  · rw [if_pos hnonce] at hOk
    simp only [Option.some.injEq, Except.ok.injEq, Prod.mk.injEq] at hOk
    rw [← hOk.1] at hSucc
    simp [ExecutionResult.mkFailure] at hSucc
  rw [if_neg hnonce] at hOk
  rcases hmul : checkedMul tx.gasLimit tx.gasPrice with _ | limitCost
  · rw [hmul] at hOk
    simp at hOk
  rw [hmul] at hOk
  simp only [] at hOk
  rcases hadd : checkedAdd tx.value limitCost with _ | totalCost
  · rw [hadd] at hOk
    simp at hOk
  rw [hadd] at hOk
  simp only [] at hOk
  by_cases hbal : ((db.getAccount s).getD Account.new).balance < totalCost
  · rw [if_pos hbal] at hOk
    simp only [Option.some.injEq, Except.ok.injEq, Prod.mk.injEq] at hOk
    rw [← hOk.1] at hSucc
    simp [ExecutionResult.mkFailure] at hSucc
  rw [if_neg hbal] at hOk
  rcases htr : meter1.consumeTransfer with _ | er2
  · rw [htr] at hOk
    simp at hOk
  rcases er2 with e | meter2
  · rw [htr] at hOk
    simp at hOk
  rw [htr] at hOk
  simp only [] at hOk
  rcases h7 :
    (if !(db.getAccount tx.toAddr).isSome && decide (0 < tx.value) then
      match meter2.consumeAccountCreation with
      | none => none
      | some (Except.error e) => some (Except.error e)
      | some (Except.ok m) =>
        some (Except.ok (m, [StateChange.accountCreated tx.toAddr]))
    else some (Except.ok (meter2, ([] : List StateChange)))) with _ | er3
  · rw [h7] at hOk
    simp at hOk
  rcases er3 with e | p7
  · rw [h7] at hOk
    simp at hOk
  obtain ⟨meter3, changes7⟩ := p7
  rw [h7] at hOk
  simp only [] at hOk
  rcases h8 :
    (if 0 < tx.value then
      match ((db.getAccount s).getD Account.new).subBalance tx.value with
      | Except.error e => Except.error e
      | Except.ok senderDebited =>
        match ((db.getAccount tx.toAddr).getD Account.new).addBalance tx.value with
        | Except.error e => Except.error e
        | Except.ok recipientCredited =>
          Except.ok (senderDebited, recipientCredited,
            [StateChange.balanceChange s
               ((db.getAccount s).getD Account.new).balance
               senderDebited.balance,
             StateChange.balanceChange tx.toAddr
               ((db.getAccount tx.toAddr).getD Account.new).balance
               recipientCredited.balance])
    else Except.ok ((db.getAccount s).getD Account.new,
      (db.getAccount tx.toAddr).getD Account.new,
      ([] : List StateChange))) with e | p8
  · rw [h8] at hOk
    simp at hOk
  obtain ⟨senderAfterTransfer, recipientFinal, changes8⟩ := p8
  rw [h8] at hOk
  simp only [] at hOk
  rcases hinc : senderAfterTransfer.incrementNonce with _ | senderBumped
  · rw [hinc] at hOk
    simp at hOk
  rw [hinc] at hOk
  simp only [] at hOk
  rcases hfee : checkedMul meter3.consumed tx.gasPrice with _ | gasCost
  · rw [hfee] at hOk
    simp at hOk
  rw [hfee] at hOk
  simp only [] at hOk
  rcases hsub : senderBumped.subBalance gasCost with e | senderFinal
  · rw [hsub] at hOk
    simp at hOk
  rw [hsub] at hOk
  simp only [] at hOk
  rcases hcb : ((db.getAccount ctx.coinbase).getD Account.new).addBalance gasCost
    with e | coinbaseFinal
  · rw [hcb] at hOk
    simp at hOk
  rw [hcb] at hOk
  simp only [Option.some.injEq, Except.ok.injEq, Prod.mk.injEq] at hOk
  obtain ⟨hres, hdb⟩ := hOk
  -- collect the arithmetic facts
  obtain ⟨hgc, hgcU⟩ := checkedMul_some hfee
  obtain ⟨hsub1, hsub2, hsub3⟩ := subBalance_ok hsub
  obtain ⟨hinc1, hinc2⟩ := incrementNonce_some hinc
  obtain ⟨hcb1, hcb2⟩ := addBalance_ok hcb
  have hgasUsed : res.gasUsed = meter3.consumed := by
    rw [← hres]
    rfl
  refine ⟨s, senderFinal, recipientFinal, coinbaseFinal, rfl, ?_, ?_, ?_, ?_, ?_,
    ?_, ?_⟩
  · rw [← hdb]
    rfl
  · -- sender balance conservation
    by_cases hv : 0 < tx.value
    · rw [if_pos hv] at h8
      rcases hsd : ((db.getAccount s).getD Account.new).subBalance tx.value
        with e | senderDebited
      · rw [hsd] at h8
        simp at h8
      rw [hsd] at h8
      simp only [] at h8
      rcases hrc : ((db.getAccount tx.toAddr).getD Account.new).addBalance
        tx.value with e | recipientCredited
      · rw [hrc] at h8
        simp at h8
      rw [hrc] at h8
      simp only [Except.ok.injEq, Prod.mk.injEq] at h8
      obtain ⟨hsd1, hsd2, hsd3⟩ := subBalance_ok hsd
      rw [readAccount, hgasUsed, ← hgc]
      have hb1 : senderFinal.balance = senderBumped.balance - gasCost := hsub2
      have hb2 : senderBumped.balance = senderAfterTransfer.balance := hinc2
      have hb3 : senderAfterTransfer.balance = senderDebited.balance := by
        rw [← h8.1]
      have hb4 : senderDebited.balance
          = ((db.getAccount s).getD Account.new).balance - tx.value := hsd2
      have hle : gasCost ≤ senderBumped.balance := hsub1
      rw [hb2, hb3, hb4] at hb1 hle
      omega
    · rw [if_neg hv] at h8
      simp only [Except.ok.injEq, Prod.mk.injEq] at h8
      have hv0 : tx.value = 0 := by omega
      rw [readAccount, hgasUsed, ← hgc]
      have hb1 : senderFinal.balance = senderBumped.balance - gasCost := hsub2
      have hb2 : senderBumped.balance = senderAfterTransfer.balance := hinc2
      have hb3 : senderAfterTransfer.balance
          = ((db.getAccount s).getD Account.new).balance := by
        rw [← h8.1]
      have hle : gasCost ≤ senderBumped.balance := hsub1
      rw [hb2, hb3] at hb1 hle
      omega
  · -- sender nonce bump
    rw [readAccount]
    have hn1 : senderFinal.nonce = senderBumped.nonce := hsub3
    have hn2 : senderBumped.nonce = senderAfterTransfer.nonce + 1 := hinc1
    have hn3 : senderAfterTransfer.nonce
        = ((db.getAccount s).getD Account.new).nonce := by
      by_cases hv : 0 < tx.value
      · rw [if_pos hv] at h8
        rcases hsd : ((db.getAccount s).getD Account.new).subBalance tx.value
          with e | senderDebited
        · rw [hsd] at h8
          simp at h8
        rw [hsd] at h8
        simp only [] at h8
        rcases hrc : ((db.getAccount tx.toAddr).getD Account.new).addBalance
          tx.value with e | recipientCredited
        · rw [hrc] at h8
          simp at h8
        rw [hrc] at h8
        simp only [Except.ok.injEq, Prod.mk.injEq] at h8
        obtain ⟨_, _, hsd3⟩ := subBalance_ok hsd
        rw [← h8.1, hsd3]
      · rw [if_neg hv] at h8
        simp only [Except.ok.injEq, Prod.mk.injEq] at h8
        rw [← h8.1]
    rw [hn1, hn2, hn3]
  · -- recipient balance
    rw [readAccount]
    by_cases hv : 0 < tx.value
    · rw [if_pos hv] at h8
      rcases hsd : ((db.getAccount s).getD Account.new).subBalance tx.value
        with e | senderDebited
      · rw [hsd] at h8
        simp at h8
      rw [hsd] at h8
      simp only [] at h8
      rcases hrc : ((db.getAccount tx.toAddr).getD Account.new).addBalance
        tx.value with e | recipientCredited
      · rw [hrc] at h8
        simp at h8
      rw [hrc] at h8
      simp only [Except.ok.injEq, Prod.mk.injEq] at h8
      obtain ⟨hrc1, _⟩ := addBalance_ok hrc
      rw [← h8.2.1, hrc1]
    · rw [if_neg hv] at h8
      simp only [Except.ok.injEq, Prod.mk.injEq] at h8
      have hv0 : tx.value = 0 := by omega
      rw [← h8.2.1, hv0]
      omega
  · -- recipient nonce
    rw [readAccount]
    by_cases hv : 0 < tx.value
    · rw [if_pos hv] at h8
      rcases hsd : ((db.getAccount s).getD Account.new).subBalance tx.value
        with e | senderDebited
      · rw [hsd] at h8
        simp at h8
      rw [hsd] at h8
      simp only [] at h8
      rcases hrc : ((db.getAccount tx.toAddr).getD Account.new).addBalance
        tx.value with e | recipientCredited
      · rw [hrc] at h8
        simp at h8
      rw [hrc] at h8
      simp only [Except.ok.injEq, Prod.mk.injEq] at h8
      obtain ⟨_, hrc2⟩ := addBalance_ok hrc
      rw [← h8.2.1, hrc2]
    · rw [if_neg hv] at h8
      simp only [Except.ok.injEq, Prod.mk.injEq] at h8
      rw [← h8.2.1]
  · -- coinbase balance
    rw [readAccount, hgasUsed, ← hgc, hcb1]
  · -- coinbase nonce
    rw [readAccount, hcb2]

theorem applyChanges_accountsOnly (blake : List Nat → Nat)
    (l : List (Address × Account)) (db : MemoryStateDB) :
    db.applyChanges blake ⟨l, [], [], []⟩
      = MemoryStateDB.applyAccounts blake l db := rfl

/-- Reading the state committed by the three `update_account` inserts of a
successful `apply`. -/
theorem readAccount_applyChanges_tri (blake : List Nat → Nat) (db : MemoryStateDB)
    {a1 a2 a3 x : Address} {v1 v2 v3 vx : Account}
    (hfind : sfind? x (sinsert a3 v3 (sinsert a2 v2 (sinsert a1 v1 [])))
      = some vx) :
    (readAccount (db.applyChanges blake
        ⟨sinsert a3 v3 (sinsert a2 v2 (sinsert a1 v1 [])), [], [], []⟩) x).balance
        = vx.balance
      ∧ (readAccount (db.applyChanges blake
          ⟨sinsert a3 v3 (sinsert a2 v2 (sinsert a1 v1 [])), [], [], []⟩) x).nonce
          = vx.nonce := by
  have hsorted : SortedKeys (sinsert a3 v3 (sinsert a2 v2 (sinsert a1 v1 []))) :=
    sortedKeys_sinsert _ _ (sortedKeys_sinsert _ _
      (sortedKeys_sinsert _ _ List.Pairwise.nil))
  rw [applyChanges_accountsOnly]
  exact readAccount_applyAccounts_of_find blake
    (NodupKeys.of_sortedKeys hsorted) hfind db

/-! ### The state root as a function of the accounts map -/

theorem rootInv_setAccount (blake : List Nat → Nat) (db : MemoryStateDB)
    (a : Address) (v : Account) : RootInv blake (db.setAccount blake a v) := rfl

theorem rootInv_deleteAccount (blake : List Nat → Nat) (db : MemoryStateDB)
    (a : Address) : RootInv blake (db.deleteAccount blake a) := rfl

theorem rootInv_setStorage (blake : List Nat → Nat) (db : MemoryStateDB)
    (a : Address) (k : Hash) (v : List Nat) :
    RootInv blake (db.setStorage blake a k v) := rfl

theorem rootInv_setCode (blake : List Nat → Nat) (db : MemoryStateDB)
    (a : Address) (c : List Nat) : RootInv blake (db.setCode blake a c) := rfl

theorem rootInv_applyAccounts (blake : List Nat → Nat)
    (l : List (Address × Account)) :
    ∀ db : MemoryStateDB, (l ≠ [] ∨ RootInv blake db) →
      RootInv blake (MemoryStateDB.applyAccounts blake l db) := by
  induction l with
  | nil =>
    intro db h
    rcases h with h | h
    · exact absurd rfl h
    · exact h
  | cons p rest ih =>
    intro db _
    rw [show p = (p.1, p.2) from rfl, applyAccounts_cons]
    exact ih _ (Or.inr (rootInv_setAccount blake db p.1 p.2))

theorem rootInv_applyDeletes (blake : List Nat → Nat) (l : List Address) :
    ∀ db : MemoryStateDB, (l ≠ [] ∨ RootInv blake db) →
      RootInv blake (MemoryStateDB.applyDeletes blake l db) := by
  induction l with
  | nil =>
    intro db h
    rcases h with h | h
    · exact absurd rfl h
    · exact h
  | cons a rest ih =>
    intro db _
    exact ih _ (Or.inr (rootInv_deleteAccount blake db a))

theorem rootInv_storageSub (blake : List Nat → Nat) (a : Address)
    (sub : List (Hash × List Nat)) :
    ∀ db : MemoryStateDB, (sub ≠ [] ∨ RootInv blake db) →
      RootInv blake
        (sub.foldl (fun d2 q => d2.setStorage blake a q.1 q.2) db) := by
  induction sub with
  | nil =>
    intro db h
    rcases h with h | h
    · exact absurd rfl h
    · exact h
  | cons q rest ih =>
    intro db _
    rw [List.foldl_cons]
    exact ih _ (Or.inr (rootInv_setStorage blake db a q.1 q.2))

theorem rootInv_applyStorages (blake : List Nat → Nat)
    (l : List (Address × List (Hash × List Nat))) :
    ∀ db : MemoryStateDB, ((∃ p ∈ l, p.2 ≠ []) ∨ RootInv blake db) →
      RootInv blake (MemoryStateDB.applyStorages blake l db) := by
  induction l with
  | nil =>
    intro db h
    rcases h with ⟨p, hp, _⟩ | h
    · exact absurd hp (List.not_mem_nil p)
    · exact h
  | cons p rest ih =>
    intro db h
    rw [MemoryStateDB.applyStorages, List.foldl_cons]
    rcases h with ⟨q, hq, hq2⟩ | h
    · rcases List.mem_cons.mp hq with hq | hq
      · subst hq
        exact ih _ (Or.inr (rootInv_storageSub blake q.1 q.2 db (Or.inl hq2)))
      · by_cases hp2 : p.2 = []
        · rw [hp2]
          exact ih _ (Or.inl ⟨q, hq, hq2⟩)
        · exact ih _ (Or.inr (rootInv_storageSub blake p.1 p.2 db (Or.inl hp2)))
    · exact ih _ (Or.inr (rootInv_storageSub blake p.1 p.2 db (Or.inr h)))

theorem rootInv_applyCodes (blake : List Nat → Nat)
    (l : List (Address × List Nat)) :
    ∀ db : MemoryStateDB, (l ≠ [] ∨ RootInv blake db) →
      RootInv blake (MemoryStateDB.applyCodes blake l db) := by
  induction l with
  | nil =>
    intro db h
    rcases h with h | h
    · exact absurd rfl h
    · exact h
  | cons p rest ih =>
    intro db _
    rw [MemoryStateDB.applyCodes, List.foldl_cons]
    exact ih _ (Or.inr (rootInv_setCode blake db p.1 p.2))

/-- After an `apply_changes` performing at least one actual write, the cached
root is the digest of the final accounts map. -/
theorem rootInv_applyChanges (blake : List Nat → Nat) (db : MemoryStateDB)
    (c : AccountChanges) (h : c.hasWrite = true) :
    RootInv blake (db.applyChanges blake c) := by
  rw [MemoryStateDB.applyChanges]
  rw [AccountChanges.hasWrite] at h
  simp only [Bool.or_eq_true, Bool.not_eq_true', List.isEmpty_eq_false,
    List.any_eq_true, List.isEmpty_iff] at h
  rcases h with ((hacc | hdel) | hst) | hcode
  · exact rootInv_applyCodes blake _ _ (Or.inr (rootInv_applyStorages blake _ _
      (Or.inr (rootInv_applyDeletes blake _ _
        (Or.inr (rootInv_applyAccounts blake _ _ (Or.inl hacc)))))))
  · exact rootInv_applyCodes blake _ _ (Or.inr (rootInv_applyStorages blake _ _
      (Or.inr (rootInv_applyDeletes blake _ _ (Or.inl hdel)))))
  · obtain ⟨p, hp, hp2⟩ := hst
    exact rootInv_applyCodes blake _ _
      (Or.inr (rootInv_applyStorages blake _ _ (Or.inl ⟨p, hp, hp2⟩)))
  · exact rootInv_applyCodes blake _ _ (Or.inl hcode)

theorem rootInv_applyChanges_pres (blake : List Nat → Nat) (db : MemoryStateDB)
    (c : AccountChanges) (h : RootInv blake db) :
    RootInv blake (db.applyChanges blake c) := by
  rw [MemoryStateDB.applyChanges]
  exact rootInv_applyCodes blake _ _ (Or.inr (rootInv_applyStorages blake _ _
    (Or.inr (rootInv_applyDeletes blake _ _
      (Or.inr (rootInv_applyAccounts blake _ _ (Or.inr h)))))))

theorem rootInv_applyAll_pres (blake : List Nat → Nat)
    (cs : List AccountChanges) :
    ∀ db : MemoryStateDB, RootInv blake db →
      RootInv blake (applyAll blake db cs) := by
  induction cs with
  | nil => exact fun db h => h
  | cons c rest ih =>
    intro db h
    exact ih _ (rootInv_applyChanges_pres blake db c h)

/-- After a sequence of `apply_changes` containing at least one actual write,
the root is the digest of the final accounts map. -/
theorem rootInv_applyAll (blake : List Nat → Nat) (cs : List AccountChanges)
    (h : cs.any AccountChanges.hasWrite = true) :
    ∀ db : MemoryStateDB, RootInv blake (applyAll blake db cs) := by
  induction cs with
  | nil => simp at h
  | cons c rest ih =>
    intro db
    rw [List.any_cons, Bool.or_eq_true] at h
    rcases h with h | h
    · exact rootInv_applyAll_pres blake rest _
        (rootInv_applyChanges blake db c h)
    · exact ih h _

/-! ### The claims -/

/-- Claim C1, amended: for every transaction executed successfully by
`BalanceTransferEngine::apply` on state `S` with sender `s`, recipient `r` and
coinbase `c` pairwise distinct (the claim required only `s ≠ r`; when the
coinbase aliases the sender or the recipient, the later `update_account`
insert overwrites the earlier one and the equations fail — see the
counterexample), the committed post-state satisfies
`S'(s).balance = S(s).balance − value − gas_used·gas_price`,
`S'(r).balance = S(r).balance + value`,
`S'(c).balance = S(c).balance + gas_used·gas_price`, and
`S'(s).nonce = S(s).nonce + 1` (the debit equation is stated additively, which
also records that the sender could afford the debits). -/
theorem c1_executor_conservation (blake : List Nat → Nat) (sched : GasSchedule)
    (tx : Tx) (db : MemoryStateDB) (ctx : ExecutionContext)
    (res : ExecutionResult) (db' : MemoryStateDB) (s : Address)
    (hs : tx.sender = some s)
    (hOk : BalanceTransferEngine.apply blake sched tx db ctx
      = some (Except.ok (res, db')))
    (hSucc : res.success = true)
    (hsr : s ≠ tx.toAddr) (hcs : ctx.coinbase ≠ s)
    (hcr : ctx.coinbase ≠ tx.toAddr) :
    (readAccount db' s).balance + tx.value + res.gasUsed * tx.gasPrice
        = (readAccount db s).balance
      ∧ (readAccount db' tx.toAddr).balance
          = (readAccount db tx.toAddr).balance + tx.value
      ∧ (readAccount db' ctx.coinbase).balance
          = (readAccount db ctx.coinbase).balance + res.gasUsed * tx.gasPrice
      ∧ (readAccount db' s).nonce = (readAccount db s).nonce + 1 := by
  obtain ⟨s', sf, rf, cf, hs', hdb, hsb, hsn, hrb, hrn, hcbal, hcn⟩ :=
    apply_ok_success hOk hSucc
  rw [hs] at hs'
  injection hs' with hss
  subst hss
  subst hdb
  have hts : tx.toAddr ≠ s := fun h => hsr h.symm
  have hfs : sfind? s (sinsert ctx.coinbase cf (sinsert tx.toAddr rf
      (sinsert s sf []))) = some sf := by
    rw [sfind?_sinsert_ne _ _ hcs, sfind?_sinsert_ne _ _ hts,
      sfind?_sinsert_self]
  have hfr : sfind? tx.toAddr (sinsert ctx.coinbase cf (sinsert tx.toAddr rf
      (sinsert s sf []))) = some rf := by
    rw [sfind?_sinsert_ne _ _ hcr, sfind?_sinsert_self]
  have hfc : sfind? ctx.coinbase (sinsert ctx.coinbase cf (sinsert tx.toAddr rf
      (sinsert s sf []))) = some cf := sfind?_sinsert_self _ _ _
  obtain ⟨hbs, hns⟩ := readAccount_applyChanges_tri blake db hfs
  obtain ⟨hbr, _⟩ := readAccount_applyChanges_tri blake db hfr
  obtain ⟨hbc, _⟩ := readAccount_applyChanges_tri blake db hfc
  refine ⟨?_, ?_, ?_, ?_⟩
  · rw [hbs]
    exact hsb
  · rw [hbr]
    exact hrb
  · rw [hbc]
    exact hcbal
  · rw [hns]
    exact hsn

/-- Claim C1, counterexample to the claim as stated: with sender 1 ≠
recipient 2 but coinbase = recipient = 2, the S1 transfer succeeds, yet the
committed balance of the recipient is the coinbase fee credit 62000 instead of
the value credit `S(r).balance + value = 100`: the claim's recipient equation
fails without pairwise distinctness. -/
theorem c1_executor_conservation_counterexample :
    ((BalanceTransferEngine.apply blakeModel GasSchedule.default txS1 dbS1
        ⟨1, 1000000, 1000000, 2⟩).map (fun r =>
          match r with
          | Except.ok (res, db') => (res.success, (readAccount db' 2).balance)
          | Except.error _ => (false, 0)))
      = some (true, 62000)
    ∧ (readAccount dbS1 2).balance + txS1.value = 100
    ∧ (62000 : Nat) ≠ 100 :=
  ⟨rfl, rfl, by decide⟩

/-- Claim C1, witness: the amended theorem applied to the concrete S1 run
(sender 1, recipient 2, coinbase 3): `937900 + 100 + 62000·1 = 1000000`,
`r = 100`, `c = 62000`, sender nonce 1. -/
theorem c1_executor_conservation_witness :
    (readAccount dbS1After 1).balance + txS1.value + resS1.gasUsed * txS1.gasPrice
        = (readAccount dbS1 1).balance
      ∧ (readAccount dbS1After 2).balance = (readAccount dbS1 2).balance + txS1.value
      ∧ (readAccount dbS1After 3).balance
          = (readAccount dbS1 3).balance + resS1.gasUsed * txS1.gasPrice
      ∧ (readAccount dbS1After 1).nonce = (readAccount dbS1 1).nonce + 1 :=
  c1_executor_conservation blakeModel GasSchedule.default txS1 dbS1 ctxS1 resS1
    dbS1After 1 rfl rfl rfl (by decide) (by decide) (by decide)

/-- Claim C2 (refuted as stated — the code can panic): `execute` performs the
unchecked computation `tx.value + tx.gas_limit * tx.gas_price`; for
`gas_limit = u64::MAX` and `gas_price = 2` the multiplication does not fit in
64 bits, which panics under Rust's checked arithmetic (`none` in the model)
instead of producing a well-typed result.  The spec demands "each failure
producing a well-typed result (never a panic)". -/
theorem c2_execute_overflow_panic :
    TransactionExecutor.execute blakeModel GasSchedule.default
        ⟨0, 2, 18446744073709551615, 2, 0, [], some 1⟩ MemoryStateDB.new
        ⟨1, 0, 18446744073709551615, 3⟩
      = none
    ∧ checkedMul 18446744073709551615 2 = none := by
  exact ⟨rfl, by decide⟩

/-- Claim C4 (refuted — the source records one missed slot, not one per
skipped slot): stepping an engine last at slot 0 with the wall clock in
slot 3 iterates `(current_slot - 1)..current_slot` after `current_slot` was
already updated, i.e. exactly the single slot 2.  Only slot 2's proposer
(validator 2 under the `slot % 3` selection) receives a missed-slot record;
the proposers of the other skipped slots (validators 0 and 1) receive none,
though the spec mandates a record for every slot skipped since the last
step. -/
theorem c4_missed_slot_single_record :
    stepSkip.1.currentSlot = 3
    ∧ stepSkip.1.slashingDetector.missedSlots = [(2, 1)]
    ∧ afind? 1 stepSkip.1.slashingDetector.missedSlots = none
    ∧ afind? 0 stepSkip.1.slashingDetector.missedSlots = none := by
  exact ⟨rfl, rfl, rfl, rfl⟩

/-- Claim C6: forking a snapshot preserves the state root and every account,
storage and code read; in fact the forked database carries exactly the
snapshot-time contents (the deep copy of the source), so later mutations of
the original — which in this embedding produce a distinct value — cannot
affect it. -/
theorem c6_snapshot_fork_fidelity (db : MemoryStateDB) (a : Address)
    (k : Hash) :
    ((db.snapshot).fork).stateRoot = db.stateRoot
    ∧ ((db.snapshot).fork).getAccount a = db.getAccount a
    ∧ ((db.snapshot).fork).getStorage a k = db.getStorage a k
    ∧ ((db.snapshot).fork).getCode a = db.getCode a
    ∧ (db.snapshot).fork = db := by
  exact ⟨rfl, rfl, rfl, rfl, rfl⟩

/-- Claim C7: for two headers at the same number with different hashes,
recording them under one validator index on a fresh detector yields no
offence on the first call and exactly one `DoubleSigning` offence — carrying
the index and both headers — on the second; recording the same header twice
yields none. -/
theorem c7_double_sign_detection (hashFn : BlockHeader → Hash)
    (maxMissed idx now1 now2 : Nat) (h1 h2 : BlockHeader)
    (hnum : h1.number = h2.number) (hhash : hashFn h1 ≠ hashFn h2) :
    ((SlashingDetector.new maxMissed).recordSignature hashFn idx h1 now1).2
        = none
    ∧ ((((SlashingDetector.new maxMissed).recordSignature hashFn idx h1
          now1).1).recordSignature hashFn idx h2 now2).2
        = some (SlashingOffence.doubleSigning ⟨idx, h1, h2, now2⟩)
    ∧ ((((SlashingDetector.new maxMissed).recordSignature hashFn idx h1
          now1).1).recordSignature hashFn idx h1 now2).2 = none := by
  refine ⟨rfl, ?_, ?_⟩
  · simp only [SlashingDetector.recordSignature, SlashingDetector.new, afind?,
      ainsert, ← hnum]
    simp [hhash]
  · simp [SlashingDetector.recordSignature, SlashingDetector.new, afind?,
      ainsert]

/-- Claim C7, witness: the S4 headers (number 7, nonces 123 and 456) under
validator index 1, with the header hash instantiated as the nonce field:
first call `none`, second call the `DoubleSigning` evidence, duplicate call
`none`. -/
theorem c7_double_sign_detection_witness :
    ((SlashingDetector.new 5).recordSignature (fun h => h.nonce) 1 hdrA 99).2
        = none
    ∧ ((((SlashingDetector.new 5).recordSignature (fun h => h.nonce) 1 hdrA
          99).1).recordSignature (fun h => h.nonce) 1 hdrB 100).2
        = some (SlashingOffence.doubleSigning ⟨1, hdrA, hdrB, 100⟩)
    ∧ ((((SlashingDetector.new 5).recordSignature (fun h => h.nonce) 1 hdrA
          99).1).recordSignature (fun h => h.nonce) 1 hdrA 100).2 = none :=
  c7_double_sign_detection (fun h => h.nonce) 5 1 99 100 hdrA hdrB rfl
    (by decide)

/-- Claim C5, amended: the state root is determined by the accounts map alone.
Two `apply_changes` sequences each containing at least one actual component
write and ending with identical account maps yield identical roots.  (The
claim's second half is refuted: storage and code contents are never fed to the
root hasher, so states differing only there share a root even for a perfect
digest — see the counterexample.  The "actual write" proviso is forced
because a change set whose storage entries are all empty performs no write
and leaves the previous root, and `MemoryStateDB::new` caches `Hash::zero`
rather than the digest of the empty map.) -/
theorem c5_state_root_determinism (blake : List Nat → Nat)
    (db1 db2 : MemoryStateDB) (cs1 cs2 : List AccountChanges)
    (h1 : cs1.any AccountChanges.hasWrite = true)
    (h2 : cs2.any AccountChanges.hasWrite = true)
    (hacc : (applyAll blake db1 cs1).accounts
      = (applyAll blake db2 cs2).accounts) :
    (applyAll blake db1 cs1).stateRoot = (applyAll blake db2 cs2).stateRoot := by
  have i1 := rootInv_applyAll blake cs1 h1 db1
  have i2 := rootInv_applyAll blake cs2 h2 db2
  rw [RootInv] at i1 i2
  rw [i1, i2, hacc]

/-- Claim C5, counterexample to the distinctness half: two states built by one
`apply_changes` each, with identical (empty) account maps but different
storage contents, have identical state roots — `update_state_root` hashes
only the accounts, so no hash collision is involved. -/
theorem c5_state_root_determinism_counterexample :
    (applyAll blakeModel MemoryStateDB.new
        [⟨[], [], [(5, [(7, [1])])], []⟩]).stateRoot
      = (applyAll blakeModel MemoryStateDB.new
          [⟨[], [], [(5, [(7, [2])])], []⟩]).stateRoot
    ∧ (applyAll blakeModel MemoryStateDB.new
        [⟨[], [], [(5, [(7, [1])])], []⟩]).accounts
      = (applyAll blakeModel MemoryStateDB.new
          [⟨[], [], [(5, [(7, [2])])], []⟩]).accounts
    ∧ (applyAll blakeModel MemoryStateDB.new
        [⟨[], [], [(5, [(7, [1])])], []⟩]).storage
      ≠ (applyAll blakeModel MemoryStateDB.new
          [⟨[], [], [(5, [(7, [2])])], []⟩]).storage :=
  ⟨rfl, rfl, by decide⟩

/-- Claim C5, witness: writing balance 5 to address 1 in one step and via an
overwritten balance 3 in two steps yields the same account map and, by the
theorem, the same root. -/
theorem c5_state_root_determinism_witness :
    ([(⟨[(1, Account.withBalance 5)], [], [], []⟩ : AccountChanges)].any
        AccountChanges.hasWrite = true)
    ∧ (applyAll blakeModel MemoryStateDB.new
          [⟨[(1, Account.withBalance 5)], [], [], []⟩]).stateRoot
        = (applyAll blakeModel MemoryStateDB.new
            [⟨[(1, Account.withBalance 3)], [], [], []⟩,
             ⟨[(1, Account.withBalance 5)], [], [], []⟩]).stateRoot :=
  ⟨by decide,
   c5_state_root_determinism blakeModel MemoryStateDB.new MemoryStateDB.new
     [⟨[(1, Account.withBalance 5)], [], [], []⟩]
     [⟨[(1, Account.withBalance 3)], [], [], []⟩,
      ⟨[(1, Account.withBalance 5)], [], [], []⟩]
     (by decide) (by decide) rfl⟩

/-- After every non-panicking prefix of `consume`/`refund` operations, the
consumed gas stays within the limit. -/
theorem runOps_le {ops : List GasOp} :
    ∀ {m m' : GasMeter}, m.consumed ≤ m.limit → runOps m ops = some m' →
      m'.consumed ≤ m'.limit := by
  induction ops with
  | nil =>
    intro m m' h hrun
    rw [runOps] at hrun
    injection hrun with h'
    rw [← h']
    exact h
  | cons o rest ih =>
    intro m m' h hrun
    cases o with
    | consume n op =>
      rw [runOps] at hrun
      rcases hc : m.consume n op with _ | er
      · rw [hc] at hrun
        simp at hrun
      rcases er with e | m2
      · rw [hc] at hrun
        exact ih h hrun
      · rw [hc] at hrun
        have hco := consume_ok hc
        have h2 : m2.consumed ≤ m2.limit := by
          rw [hco.2.2.1]
          exact hco.2.1
        exact ih h2 hrun
    | refund n op =>
      rw [runOps] at hrun
      have h2 : (m.refund n op).consumed ≤ (m.refund n op).limit := by
        simp only [GasMeter.refund]
        omega
      exact ih h2 hrun

/-- Claim C8, amended: for every meter reached without a panic from a meter
satisfying `consumed ≤ limit`, the invariant `0 ≤ consumed ≤ limit` holds;
whenever the `u64` sums `consumed + n` and `breakdown[op] + n` do not
overflow (the claim is refuted without this proviso — the unchecked sum in
`check_gas` panics instead of returning `OutOfGas`, see the counterexample),
`consume(n, op)` fails with `OutOfGas{required: n, available: limit −
consumed}` exactly when `consumed + n > limit` — leaving the caller's meter
unchanged, as the error is returned before any mutation — and otherwise
advances `consumed` by `n` within the limit; `refund(n, op)` subtracts
saturatingly, never past zero, and keeps the limit. -/
theorem c8_gas_meter_invariant (m : GasMeter) (ops : List GasOp) (m' : GasMeter)
    (n : Nat) (op : String)
    (hstart : m.consumed ≤ m.limit)
    (hrun : runOps m ops = some m')
    (hnoU : m'.consumed + n < U64)
    (hbk : (afind? op m'.breakdown).getD 0 + n < U64) :
    m'.consumed ≤ m'.limit
    ∧ (m'.limit < m'.consumed + n →
        m'.consume n op
          = some (Except.error (VmError.outOfGas n (m'.limit - m'.consumed))))
    ∧ (m'.consumed + n ≤ m'.limit →
        ∃ m2, m'.consume n op = some (Except.ok m2)
          ∧ m2.consumed = m'.consumed + n ∧ m2.limit = m'.limit
          ∧ m2.consumed ≤ m2.limit)
    ∧ (m'.refund n op).consumed = m'.consumed - n
    ∧ (m'.refund n op).limit = m'.limit := by
  refine ⟨runOps_le hstart hrun, ?_, ?_, rfl, rfl⟩
  · intro hlt
    have hck : m'.checkGas n
        = some (Except.error (VmError.outOfGas n m'.remaining)) := by
      rw [GasMeter.checkGas, if_pos hnoU, if_pos hlt]
    rw [GasMeter.consume, hck]
    rfl
  · intro hle
    have hng : ¬m'.consumed + n > m'.limit := Nat.not_lt.mpr hle
    have hck : m'.checkGas n = some (Except.ok ()) := by
      rw [GasMeter.checkGas, if_pos hnoU, if_neg hng]
    refine ⟨{ m' with
        consumed := m'.consumed + n,
        breakdown := ainsert op ((afind? op m'.breakdown).getD 0 + n)
          m'.breakdown }, ?_, rfl, rfl, hle⟩
    rw [GasMeter.consume, hck]
    simp only []
    rw [if_pos hbk]

/-- Claim C8, counterexample to the exactness half: from a meter with
`limit = consumed = 5`, a `consume` of `u64::MAX` has `consumed + n > limit`,
so the claim demands an `OutOfGas` failure — but the unchecked sum in
`check_gas` exceeds `u64` and the call panics (`none`) instead. -/
theorem c8_gas_meter_invariant_counterexample :
    (((GasMeter.new 5 GasSchedule.default).consume 5 "a").bind (fun r =>
        match r with
        | Except.ok m1 => m1.consume 18446744073709551615 "b"
        | Except.error e => some (Except.error e)))
      = none
    ∧ 5 + 18446744073709551615 > 5 :=
  ⟨rfl, by decide⟩

/-- Claim C8, witness: after the concrete run `consume 1000 "a"`,
`refund 400 "a"`, `consume 99000 "b"` from a fresh 100000-limit meter, the
invariant holds and a refund subtracts saturatingly. -/
theorem c8_gas_meter_invariant_witness :
    meterDemo.consumed ≤ meterDemo.limit
    ∧ (meterDemo.refund 500 "a").consumed = meterDemo.consumed - 500 :=
  ⟨(c8_gas_meter_invariant (GasMeter.new 100000 GasSchedule.default) gasOpsDemo
      meterDemo 500 "a" (by decide) (by decide) (by decide) (by decide)).1,
   (c8_gas_meter_invariant (GasMeter.new 100000 GasSchedule.default) gasOpsDemo
      meterDemo 500 "a" (by decide) (by decide) (by decide)
      (by decide)).2.2.2.1⟩

/-- The 10% estimation buffer: `gas_used + gas_used / 10` is exactly the
claim's `gas_used * 110 / 100` in integer arithmetic. -/
theorem gasBufferFormula (g : Nat) : g + g / 10 = g * 110 / 100 := by omega

/-- Claim C9, amended: whenever the execution of the transaction on the fork
of the state's snapshot returns a result and the 10% buffer addition does not
overflow `u64` (the claim is refuted without this proviso, see the
counterexample), `estimate_gas` returns `min(gas_used * 110/100,
ctx.gas_limit)`; and the forked copy it executes on carries exactly the
original state's contents, the original being only read (`snapshot`), never
written. -/
theorem c9_estimate_gas_formula (blake : List Nat → Nat) (sched : GasSchedule)
    (tx : Tx) (db : MemoryStateDB) (ctx : ExecutionContext)
    (res : ExecutionResult) (dbT : MemoryStateDB)
    (hexec : TransactionExecutor.execute blake sched tx ((db.snapshot).fork) ctx
      = some (Except.ok (res, dbT)))
    (hbuf : res.gasUsed + res.gasUsed / 10 < U64) :
    TransactionExecutor.estimateGas blake sched tx db ctx
      = some (Except.ok (min (res.gasUsed * 110 / 100) ctx.gasLimit))
    ∧ (db.snapshot).fork = db := by
  constructor
  · have hca : checkedAdd res.gasUsed (res.gasUsed / 10)
        = some (res.gasUsed + res.gasUsed / 10) := by
      rw [checkedAdd, if_pos hbuf]
    simp only [TransactionExecutor.estimateGas]
    rw [hexec]
    simp only []
    rw [hca]
    simp only []
    rw [gasBufferFormula]
  · rfl

/-- Claim C9, counterexample to the claim as stated: with a gas schedule whose
transfer cost is `u64::MAX` (loadable from configuration) and a matching gas
limit, the forked execution succeeds with `gas_used = u64::MAX`, and the
unchecked buffer addition `gas_used + gas_used / 10` exceeds `u64`:
`estimate_gas` panics (`none`) instead of returning the capped estimate. -/
theorem c9_estimate_gas_formula_counterexample :
    TransactionExecutor.estimateGas blakeModel
        ⟨0, 0, 0, 0, 0, 18446744073709551615, 0, 0, 0⟩
        ⟨0, 0, 18446744073709551615, 2, 0, [], some 1⟩ MemoryStateDB.new
        ⟨1, 0, 18446744073709551615, 3⟩
      = none
    ∧ ((TransactionExecutor.execute blakeModel
        ⟨0, 0, 0, 0, 0, 18446744073709551615, 0, 0, 0⟩
        ⟨0, 0, 18446744073709551615, 2, 0, [], some 1⟩
        ((MemoryStateDB.new.snapshot).fork)
        ⟨1, 0, 18446744073709551615, 3⟩).map (fun r =>
          match r with
          | Except.ok (res, _) => res.gasUsed
          | Except.error _ => 0))
      = some 18446744073709551615 :=
  ⟨rfl, rfl⟩

/-- Claim C9, witness: estimating the S1 transaction returns
`min(62000·110/100, 1000000) = 68200` and the fork carries exactly the
original contents. -/
theorem c9_estimate_gas_formula_witness :
    TransactionExecutor.estimateGas blakeModel GasSchedule.default txS1 dbS1
        ctxS1
      = some (Except.ok (min (62000 * 110 / 100) 1000000))
    ∧ (dbS1.snapshot).fork = dbS1 :=
  c9_estimate_gas_formula blakeModel GasSchedule.default txS1 dbS1 ctxS1 resS1
    dbS1After rfl (by decide)

/-- Claim C10: when the three addresses written by a successful execution
alias, the later `update_account` insert overwrites the earlier one, so the
committed account is the copy loaded from the pre-execution state before the
sender's debits: a self-transfer (`tx.to = sender`, value > 0, coinbase
distinct) commits the sender with balance increased by the value and without
the nonce bump or fee debit; a sender–coinbase alias (recipient distinct)
commits the sender credited with the fee and without the value debit, fee
debit or nonce bump. -/
theorem c10_alias_last_write_wins (blake : List Nat → Nat) (sched : GasSchedule)
    (tx : Tx) (db : MemoryStateDB) (ctx : ExecutionContext)
    (res : ExecutionResult) (db' : MemoryStateDB) (s : Address)
    (hs : tx.sender = some s)
    (hOk : BalanceTransferEngine.apply blake sched tx db ctx
      = some (Except.ok (res, db')))
    (hSucc : res.success = true) :
    (tx.toAddr = s → ctx.coinbase ≠ s → 0 < tx.value →
      (readAccount db' s).balance = (readAccount db s).balance + tx.value
        ∧ (readAccount db' s).nonce = (readAccount db s).nonce)
    ∧ (ctx.coinbase = s → tx.toAddr ≠ s →
      (readAccount db' s).balance
          = (readAccount db s).balance + res.gasUsed * tx.gasPrice
        ∧ (readAccount db' s).nonce = (readAccount db s).nonce) := by
  obtain ⟨s', sf, rf, cf, hs', hdb, hsb, hsn, hrb, hrn, hcbal, hcn⟩ :=
    apply_ok_success hOk hSucc
  rw [hs] at hs'
  injection hs' with hss
  subst hss
  subst hdb
  constructor
  · intro hto hcs _
    have hfs : sfind? s (sinsert ctx.coinbase cf (sinsert tx.toAddr rf
        (sinsert s sf []))) = some rf := by
      rw [sfind?_sinsert_ne _ _ hcs, hto, sfind?_sinsert_self]
    obtain ⟨hb, hn⟩ := readAccount_applyChanges_tri blake db hfs
    constructor
    · rw [hb, hrb, hto]
    · rw [hn, hrn, hto]
  · intro hcs hto
    have hfs : sfind? s (sinsert ctx.coinbase cf (sinsert tx.toAddr rf
        (sinsert s sf []))) = some cf := by
      rw [hcs, sfind?_sinsert_self]
    obtain ⟨hb, hn⟩ := readAccount_applyChanges_tri blake db hfs
    constructor
    · rw [hb, hcbal, hcs]
    · rw [hn, hcn, hcs]

/-- Claim C3: a transaction failing the nonce check or the balance check
returns `success = false` with `gas_used` equal to the gas consumed up to the
failure point (exactly the `tx_base` charge), an error string reporting the
expected and observed values, and the state completely unchanged — the
returned state is the input state, `apply_changes` is never reached. -/
theorem c3_failure_rollback (blake : List Nat → Nat) (sched : GasSchedule)
    (tx : Tx) (db : MemoryStateDB) (ctx : ExecutionContext) (s : Address)
    (m1 : GasMeter)
    (hs : tx.sender = some s)
    (hdata : tx.data = [])
    (hgl0 : ¬tx.gasLimit = 0)
    (hglc : tx.gasLimit ≤ ctx.gasLimit)
    (hbase : (GasMeter.new tx.gasLimit sched).consumeTxBase tx.data.length
      = some (Except.ok m1)) :
    m1.consumed = sched.txBase
    ∧ ((readAccount db s).nonce ≠ tx.nonce →
        TransactionExecutor.execute blake sched tx db ctx
          = some (Except.ok (ExecutionResult.mkFailure m1.consumed
              ("Invalid nonce: expected " ++ toString (readAccount db s).nonce
                ++ ", got " ++ toString tx.nonce), db)))
    ∧ (∀ limitCost totalCost : Nat,
        (readAccount db s).nonce = tx.nonce →
        checkedMul tx.gasLimit tx.gasPrice = some limitCost →
        checkedAdd tx.value limitCost = some totalCost →
        (readAccount db s).balance < totalCost →
        TransactionExecutor.execute blake sched tx db ctx
          = some (Except.ok (ExecutionResult.mkFailure m1.consumed
              ("Insufficient balance: required " ++ toString totalCost
                ++ ", available " ++ toString (readAccount db s).balance),
            db))) := by
  have hempty : tx.data.isEmpty = true := by
    rw [hdata]
    rfl
  have hnotlt : ¬ctx.gasLimit < tx.gasLimit := Nat.not_lt.mpr hglc
  refine ⟨?_, ?_, ?_⟩
  · have h1 := (consumeTxBase_ok hbase).1
    rw [hdata] at h1
    simp [GasMeter.new, U64] at h1
    exact h1
  · intro hnonce
    rw [readAccount] at hnonce
    rw [TransactionExecutor.execute, if_neg hgl0, if_neg hnotlt, if_pos hempty,
      BalanceTransferEngine.apply, hs]
    simp only []
    rw [hbase]
    simp only []
    rw [if_pos hnonce, readAccount]
  · intro limitCost totalCost hnonce hmul hadd hbal
    rw [readAccount] at hnonce hbal
    have hnn : ¬((db.getAccount s).getD Account.new).nonce ≠ tx.nonce :=
      fun h => h hnonce
    rw [TransactionExecutor.execute, if_neg hgl0, if_neg hnotlt, if_pos hempty,
      BalanceTransferEngine.apply, hs]
    simp only []
    rw [hbase]
    simp only []
    rw [if_neg hnn, hmul]
    simp only []
    rw [hadd]
    simp only []
    rw [if_pos hbal, readAccount]

/-- Claim C3, witness: the concrete S2 run (nonce 5 against expected 0) and S3
run (balance 10 against a required 100100) both fail with 21000 gas consumed,
an error naming both values, and the input state returned unchanged. -/
theorem c3_failure_rollback_witness :
    TransactionExecutor.execute blakeModel GasSchedule.default
        ⟨5, 1, 100000, 2, 100, [], some 1⟩ dbS1 ctxS1
      = some (Except.ok (ExecutionResult.mkFailure 21000
          "Invalid nonce: expected 0, got 5", dbS1))
    ∧ TransactionExecutor.execute blakeModel GasSchedule.default txS1 dbS3 ctxS1
      = some (Except.ok (ExecutionResult.mkFailure 21000
          "Insufficient balance: required 100100, available 10", dbS3)) :=
  ⟨(c3_failure_rollback blakeModel GasSchedule.default
      ⟨5, 1, 100000, 2, 100, [], some 1⟩ dbS1 ctxS1 1
      ⟨100000, 21000, GasSchedule.default, [("tx_base", 21000)]⟩
      rfl rfl (by decide) (by decide) rfl).2.1 (by decide),
   (c3_failure_rollback blakeModel GasSchedule.default txS1 dbS3 ctxS1 1
      ⟨100000, 21000, GasSchedule.default, [("tx_base", 21000)]⟩
      rfl rfl (by decide) (by decide) rfl).2.2 100000 100100 rfl rfl rfl
     (by decide)⟩

/-- Claim C10, witness: the theorem applied to the two concrete aliased runs —
a self-transfer of 100 commits the sender at `1000000 + 100` with nonce 0, and
a sender-coinbase run commits the sender at `1000000 + 62000·1` with nonce 0. -/
theorem c10_alias_last_write_wins_witness :
    ((readAccount dbSelfAfter 1).balance = (readAccount dbS1 1).balance + 100
      ∧ (readAccount dbSelfAfter 1).nonce = (readAccount dbS1 1).nonce)
    ∧ ((readAccount dbCbSenderAfter 1).balance
          = (readAccount dbS1 1).balance + 62000 * 1
      ∧ (readAccount dbCbSenderAfter 1).nonce = (readAccount dbS1 1).nonce) :=
  ⟨(c10_alias_last_write_wins blakeModel GasSchedule.default txSelf dbS1 ctxS1
      resSelf dbSelfAfter 1 rfl rfl rfl).1 rfl (by decide) (by decide),
   (c10_alias_last_write_wins blakeModel GasSchedule.default txS1 dbS1
      ctxCbSender resCbSender dbCbSenderAfter 1 rfl rfl rfl).2 rfl
     (by decide)⟩

end Chain
